import Mathlib

/-!
# php-fpm exporter: the scrape / parse / publish pipeline

A shallow embedding of `fpm_exporter.go` (`NewExporter`, `Exporter.collect`,
`Exporter.Extract`, `Exporter.Collect`) and of the library operations they call
(`strings.Split`, `strings.TrimSpace`, `strconv.Atoi`, the conversion
`float64(int)`, `GaugeVec.WithLabelValues(..).Set`, `Counter.Inc`, and the two
`Collect` methods that emit samples).

Modelling conventions.

* A Go `string` is the list of its code points (`GoString`): the text handled
  here is UTF-8, both separators (`"\n"`, `":"`) and all expected names are
  ASCII, so the byte-wise library operations agree with the code-point-wise
  ones below.
* The answer of the HTTP server to `e.client.Get(e.URI)` is an input of each
  collection round (`FetchResult`).
* A Go call that can panic returns an `Option`: `none` is the panic.  The `error`
  result of a Go function is an `Option ScrapeError` (`none` is `nil`).
* `int` is the 64-bit `int` of the usual build targets; `float64(v)` is modelled
  exactly, as the integer that the nearest IEEE-754 double denotes.
* The counter `scrapeFailures` is a natural number, as the contract of
  `Counter.Inc` has it (one more at each call).
* The mutex of `Collect` is not modelled: the development is about one round at
  a time (sequential semantics).
-/

set_option autoImplicit false

namespace FpmExporter

/-- A Go string, as the list of its code points. -/
abbrev GoString := List Char

/-! ## Library operations -/

/-- The Go call `strings.Split(s, sep)` for a separator of one character: the
pieces of `s` between the occurrences of `sep` (one more piece than there are
occurrences; the empty string gives one empty piece). -/
def Split : GoString → Char → List GoString
  | [], _ => [[]]
  | c :: cs, sep =>
    if c = sep then [] :: Split cs sep
    else
      match Split cs sep with
      | [] => [[c]]
      | p :: ps => (c :: p) :: ps

/-- The Go predicate `unicode.IsSpace`: the code points with the Unicode
White_Space property. -/
def isSpace (c : Char) : Bool :=
  let n := c.toNat
  (9 ≤ n && n ≤ 13) || n = 32 || n = 0x85 || n = 0xA0 || n = 0x1680 ||
  (0x2000 ≤ n && n ≤ 0x200A) || n = 0x2028 || n = 0x2029 || n = 0x202F ||
  n = 0x205F || n = 0x3000

/-- The Go call `strings.TrimSpace(s)`: `s` without its leading and trailing white
space. -/
def TrimSpace (s : GoString) : GoString :=
  ((s.dropWhile isSpace).reverse.dropWhile isSpace).reverse

/-- The two kinds of `strconv.NumError`. -/
inductive NumErrKind where
  | ErrSyntax
  | ErrRange
  deriving DecidableEq, Repr

deriving instance DecidableEq for Except

/-- Is the character a decimal digit? -/
def isDigit (c : Char) : Bool := 48 ≤ c.toNat && c.toNat ≤ 57

/-- The digit loop of `strconv.ParseUint(s, 10, 64)`, with the value read so far:
a character that is not a decimal digit is a syntax error, a value that does not
fit 64 bits is a range error, whichever comes first. -/
def parseUintLoop : GoString → Nat → Except NumErrKind Nat
  | [], n => .ok n
  | c :: cs, n =>
    if isDigit c then
      if n * 10 + (c.toNat - 48) < 2 ^ 64 then parseUintLoop cs (n * 10 + (c.toNat - 48))
      else .error .ErrRange
    else .error .ErrSyntax

/-- The Go call `strconv.ParseUint(s, 10, 64)`. -/
def ParseUint (s : GoString) : Except NumErrKind Nat :=
  match s with
  | [] => .error .ErrSyntax
  | _ :: _ => parseUintLoop s 0

/-- The Go call `strconv.Atoi(s)` with a 64-bit `int` (the same as
`strconv.ParseInt(s, 10, 0)`): an optional sign, then `ParseUint`, then the check
that the signed value fits `int`. -/
def Atoi (s : GoString) : Except NumErrKind Int :=
  match s with
  | [] => .error .ErrSyntax
  | c :: cs =>
    let neg := decide (c = '-')
    let digits := if c = '+' ∨ c = '-' then cs else s
    match ParseUint digits with
    | .error .ErrSyntax => .error .ErrSyntax
    | .error .ErrRange => .error .ErrRange
    | .ok un =>
      if neg = false ∧ 2 ^ 63 ≤ un then .error .ErrRange
      else if neg = true ∧ 2 ^ 63 < un then .error .ErrRange
      else .ok (if neg then -(un : Int) else (un : Int))

/-- The number of times `n` has to be halved to come below `2 ^ 53`: the number
of low bits that a double cannot keep (`fuel` bounds the halvings; `n` itself is
always enough). -/
def excessBits : Nat → Nat → Nat
  | 0, _ => 0
  | fuel + 1, n => if n < 2 ^ 53 then 0 else excessBits fuel (n / 2) + 1

/-- The natural number that the double nearest to `n` denotes (round to nearest,
ties to even, 53 significant bits); exact below `2 ^ 53`. -/
def roundNat53 (n : Nat) : Nat :=
  let sh := excessBits n n
  let q := n / 2 ^ sh
  let r := n % 2 ^ sh
  if 2 ^ sh < 2 * r ∨ (2 ^ sh = 2 * r ∧ q % 2 = 1) then (q + 1) * 2 ^ sh else q * 2 ^ sh

/-- The Go conversion `float64(v)` of an `int`, as the integer that the resulting
double denotes. -/
def float64 (v : Int) : Int :=
  if v < 0 then -((roundNat53 v.natAbs : Nat) : Int) else ((roundNat53 v.natAbs : Nat) : Int)

/-! ## The exporter -/

/-- The errors that `collect` can return, one constructor for each place of the
source that builds an error, with the values that the message is made of. -/
inductive ScrapeError where
  /-- The message "Error scraping fpm: %v" of a failed `e.client.Get`. -/
  | scrape (err : GoString)
  /-- The message "Status %s (%d): %s". -/
  | status (status : GoString) (code : Int) (data : GoString)
  /-- The message "Unexpected number of lines in status: %v". -/
  | lineCount (lines : List GoString)
  /-- The message "Unexpected line: %s\nExpected: %s" of `Extract`. -/
  | unexpectedLine (line : GoString) (name : GoString)
  /-- The `*strconv.NumError` of `strconv.Atoi`, returned by `Extract` as it is. -/
  | numError (num : GoString) (kind : NumErrKind)
  deriving DecidableEq, Repr

/-- What `collect` reads of an `*http.Response`: the status text and code, the
bytes that `ioutil.ReadAll(resp.Body)` returned and the error it returned. -/
structure Response where
  Status : GoString
  StatusCode : Int
  data : GoString
  readErr : Option GoString
  deriving DecidableEq, Repr

/-- The result of `e.client.Get(e.URI)`: an error or a response. -/
inductive FetchResult where
  | failed (err : GoString)
  | response (resp : Response)
  deriving DecidableEq, Repr

/-- A `prometheus.GaugeVec` with the one variable label `state`: its children, as
pairs of the label value and the value of the gauge. -/
abbrev GaugeVec := List (GoString × Int)

/-- The call `g.WithLabelValues(label).Set(v)`: the child of that label is created
when there is none, and its value is overwritten. -/
def GaugeVec.Set : GaugeVec → GoString → Int → GaugeVec
  | [], label, v => [(label, v)]
  | (l, w) :: rest, label, v =>
    if l = label then (l, v) :: rest else (l, w) :: GaugeVec.Set rest label v

/-- The value of the child of `g` with the given label, if there is one. -/
def GaugeVec.value : GaugeVec → GoString → Option Int
  | [], _ => none
  | (l, w) :: rest, label => if l = label then some w else GaugeVec.value rest label

/-- The label values of the children of `g`. -/
def GaugeVec.labels (g : GaugeVec) : List GoString := g.map Prod.fst

/-- The mutable part of the type `Exporter` and its URI: the value of the counter
`scrapeFailures` and the children of the gauge vector `currentConnections` (the
fields `mutex`, `client` and `processedConnections` hold nothing that a round
reads or changes in this sequential model). -/
structure Exporter where
  URI : GoString
  scrapeFailures : Nat
  currentConnections : GaugeVec
  deriving DecidableEq, Repr

/-- A sample sent on the channel `ch`: of the failure counter, or of the gauge with
the given `state` label. -/
inductive Metric where
  | counter (value : Nat)
  | gauge (state : GoString) (value : Int)
  deriving DecidableEq, Repr

/-- The Go function `NewExporter`: a counter at zero and a gauge vector without
children. -/
def NewExporter (uri : GoString) : Exporter :=
  { URI := uri, scrapeFailures := 0, currentConnections := [] }

/-- The result of a method that returns an `error` and may change the exporter:
`none` when it panics, otherwise the exporter afterwards and the error (`none` for
`nil`). -/
abbrev Outcome := Option (Exporter × Option ScrapeError)

/-- The Go method `Exporter.Extract`. The index `line` is a natural number (the
source passes the constants 4 to 13); `lines[line]` panics when it is not below
the number of lines. -/
def Exporter.Extract (e : Exporter) (line : Nat) (name label : GoString)
    (lines : List GoString) : Outcome :=
  match lines[line]? with
  | none => none
  | some l =>
    let parts := Split l ':'
    if parts.length ≠ 2 ∨ parts.getD 0 [] ≠ name then
      some (e, some (.unexpectedLine l name))
    else
      match Atoi (TrimSpace (parts.getD 1 [])) with
      | .error kind => some (e, some (.numError (TrimSpace (parts.getD 1 [])) kind))
      | .ok v =>
        some ({ e with currentConnections := e.currentConnections.Set label (float64 v) }, none)

/-- The Go idiom `if err = f(); err != nil { return err }` followed by `rest`: a
panic or an error of the first call ends the function, otherwise `rest` runs on
the exporter as the first call left it. -/
def Outcome.andThen (o : Outcome) (rest : Exporter → Outcome) : Outcome :=
  match o with
  | none => none
  | some (e, some err) => some (e, some err)
  | some (e, none) => rest e

/-- The Go method `Exporter.collect`, on the result of `e.client.Get(e.URI)`. -/
def Exporter.collect (e : Exporter) (r : FetchResult) : Outcome :=
  match r with
  | .failed err => some (e, some (.scrape err))
  | .response resp =>
    if resp.StatusCode < 200 ∨ resp.StatusCode ≥ 400 then
      let data := match resp.readErr with
        | some msg => msg
        | none => resp.data
      some (e, some (.status resp.Status resp.StatusCode data))
    else
      let lines := Split resp.data '\n'
      if lines.length ≠ 15 then some (e, some (.lineCount lines))
      else
        (e.Extract 4 "accepted conn".toList "accepted_connection".toList lines).andThen fun e =>
        (e.Extract 5 "listen queue".toList "listen_queue".toList lines).andThen fun e =>
        (e.Extract 6 "max listen queue".toList "max_listen_queue".toList lines).andThen fun e =>
        (e.Extract 7 "listen queue len".toList "listen_queue_length".toList lines).andThen fun e =>
        (e.Extract 8 "idle processes".toList "idle_processes".toList lines).andThen fun e =>
        (e.Extract 9 "active processes".toList "active_processes".toList lines).andThen fun e =>
        (e.Extract 10 "total processes".toList "total_processes".toList lines).andThen fun e =>
        (e.Extract 11 "max active processes".toList "max_active_processes".toList lines).andThen
        fun e =>
        (e.Extract 12 "max children reached".toList "max_children_reached".toList lines).andThen
        fun e =>
        (e.Extract 13 "slow requests".toList "slow_request".toList lines).andThen fun e =>
        some (e, none)

/-- The samples that `e.currentConnections.Collect(ch)` sends: one for each child
(in the order of the list here; Go sends them in the order of a map iteration,
which is not specified, and no statement below depends on it beyond the samples
being those of the children). -/
def GaugeVec.Collect (g : GaugeVec) : List Metric :=
  g.map fun p => Metric.gauge p.1 p.2

/-- The Go method `Exporter.Collect`, on the result of `e.client.Get(e.URI)`: the
exporter afterwards and the samples sent on `ch`, in the order of sending (`none`
when the round panics). -/
def Exporter.Collect (e : Exporter) (r : FetchResult) : Option (Exporter × List Metric) :=
  match e.collect r with
  | none => none
  | some (e1, some _) =>
    let e2 := { e1 with scrapeFailures := e1.scrapeFailures + 1 }
    some (e2, Metric.counter e2.scrapeFailures :: e2.currentConnections.Collect)
  | some (e1, none) => some (e1, e1.currentConnections.Collect)

/-- The constant `fpmStatus` of `fpm_exporter_test.go`. -/
def fpmStatus : GoString :=
  ("pool:                 api\n" ++
   "process manager:      static\n" ++
   "start time:           28/Dec/2016:18:06:46 +0100\n" ++
   "start since:          65086\n" ++
   "accepted conn:        1049662\n" ++
   "listen queue:         0\n" ++
   "max listen queue:     0\n" ++
   "listen queue len:     0\n" ++
   "idle processes:       25\n" ++
   "active processes:     5\n" ++
   "total processes:      30\n" ++
   "max active processes: 30\n" ++
   "max children reached: 0\n" ++
   "slow requests:        0\n").toList

/-- The response of the test server of `TestFpmStatus`: status 200 and the body
`fpmStatus`. -/
def testResponse : Response :=
  { Status := "200 OK".toList, StatusCode := 200, data := fpmStatus, readErr := none }

/-! ## Vocabulary of the specification -/

/-- The field table of the specification: for each consumed line its index, the
expected field name and the published label (the arguments of the ten calls of
`Extract` in `collect`, in their order). -/
def fieldTable : List (Nat × GoString × GoString) :=
  [(4, "accepted conn".toList, "accepted_connection".toList),
   (5, "listen queue".toList, "listen_queue".toList),
   (6, "max listen queue".toList, "max_listen_queue".toList),
   (7, "listen queue len".toList, "listen_queue_length".toList),
   (8, "idle processes".toList, "idle_processes".toList),
   (9, "active processes".toList, "active_processes".toList),
   (10, "total processes".toList, "total_processes".toList),
   (11, "max active processes".toList, "max_active_processes".toList),
   (12, "max children reached".toList, "max_children_reached".toList),
   (13, "slow requests".toList, "slow_request".toList)]

/-- The ten published labels. -/
def fieldLabels : List GoString := fieldTable.map fun f => f.2.2

/-- The calls of `Extract` for the rows of a table, one after the other, each
under the idiom `if err = ...; err != nil { return err }`, and `return nil` at
the end. -/
def extractAll (lines : List GoString) : List (Nat × GoString × GoString) → Exporter → Outcome
  | [], e => some (e, none)
  | f :: rest, e => (e.Extract f.1 f.2.1 f.2.2 lines).andThen (extractAll lines rest)

/-- The response has a status code in `[200, 400)`. -/
def Response.statusOk (resp : Response) : Prop := 200 ≤ resp.StatusCode ∧ resp.StatusCode < 400

/-- The text is an optional sign followed by one or more decimal digits: a
base-10 integer as it is written. -/
def IsBase10Integer (s : GoString) : Prop :=
  match s with
  | [] => False
  | c :: cs =>
    if c = '+' ∨ c = '-' then cs ≠ [] ∧ cs.all isDigit = true
    else (c :: cs).all isDigit = true

/-- The number that a sequence of decimal digits denotes. -/
def digitsValue (ds : GoString) : Nat := ds.foldl (fun n c => n * 10 + (c.toNat - 48)) 0

/-- The integer that a base-10 integer text denotes. -/
def decimalValue (s : GoString) : Int :=
  match s with
  | [] => 0
  | c :: cs =>
    if c = '-' then -(digitsValue cs : Int)
    else if c = '+' then (digitsValue cs : Int)
    else (digitsValue (c :: cs) : Int)

/-- The text of a line after its first ':'. -/
def afterColon (l : GoString) : GoString := (l.dropWhile fun c => c ≠ ':').drop 1

/-- The text of a line before its first ':'. -/
def beforeColon (l : GoString) : GoString := l.takeWhile fun c => c ≠ ':'

/-- The integer written on a line `name: value`. -/
def writtenInt (l : GoString) : Int := decimalValue (TrimSpace (afterColon l))

/-- A line as the field table wants it: exactly one ':', the expected name before
it, and after it, white space trimmed, a base-10 integer. -/
def WellFormedLine (name l : GoString) : Prop :=
  l.count ':' = 1 ∧ beforeColon l = name ∧ IsBase10Integer (TrimSpace (afterColon l))

/-- The integer fits the 64-bit `int`. -/
def FitsInt (v : Int) : Prop := -(2 ^ 63 : Int) ≤ v ∧ v < (2 ^ 63 : Int)

/-- The states of the exporter that a program can see: the one that `NewExporter`
builds, and those that calls of `Collect` lead to, whatever the server answers. -/
inductive Reachable : Exporter → Prop where
  | init (uri : GoString) : Reachable (NewExporter uri)
  | step {e e1 : Exporter} {out : List Metric} (r : FetchResult) :
      Reachable e → e.Collect r = some (e1, out) → Reachable e1

/-- Has the round failed: did `collect` return an error? -/
def roundFailed (e : Exporter) (r : FetchResult) : Bool :=
  match e.collect r with
  | some (_, some _) => true
  | _ => false

/-- A sequence of calls of `Collect`, one for each answer of the server: the
exporter at the end and, round by round, whether `collect` returned an error
(`none` when a round panics). -/
def runCollects : Exporter → List FetchResult → Option (Exporter × List Bool)
  | e, [] => some (e, [])
  | e, r :: rs =>
    match e.Collect r with
    | none => none
    | some (e1, _) =>
      match runCollects e1 rs with
      | none => none
      | some (e2, flags) => some (e2, roundFailed e r :: flags)

/-- Line `k` of a report (the empty text when the report is shorter). -/
def lineAt (lines : List GoString) (k : Nat) : GoString := lines.getD k []

instance instDecidableIsBase10Integer (s : GoString) : Decidable (IsBase10Integer s) := by
  unfold IsBase10Integer
  split <;> infer_instance

instance instDecidableWellFormedLine (name l : GoString) : Decidable (WellFormedLine name l) := by
  unfold WellFormedLine
  infer_instance

instance instDecidableFitsInt (v : Int) : Decidable (FitsInt v) := by
  unfold FitsInt
  infer_instance

instance instDecidableStatusOk (resp : Response) : Decidable resp.statusOk := by
  unfold Response.statusOk
  infer_instance

/-! ## Concrete reports -/

/-- The exporter of the examples, as `main` builds it with the default flag. -/
def freshExporter : Exporter := NewExporter "http://localhost/fpm_status".toList

/-- The exporter after the one round of `TestFpmStatus`. -/
def afterTest : Exporter :=
  match freshExporter.Collect (.response testResponse) with
  | some (e, _) => e
  | none => freshExporter

/-- A report like `fpmStatus` whose `accepted conn` counter has reached `2 ^ 63`. -/
def overflowResponse : Response :=
  { Status := "200 OK".toList
    StatusCode := 200
    data :=
      ("pool:                 api\n" ++
       "process manager:      static\n" ++
       "start time:           28/Dec/2016:18:06:46 +0100\n" ++
       "start since:          65086\n" ++
       "accepted conn:        9223372036854775808\n" ++
       "listen queue:         0\n" ++
       "max listen queue:     0\n" ++
       "listen queue len:     0\n" ++
       "idle processes:       25\n" ++
       "active processes:     5\n" ++
       "total processes:      30\n" ++
       "max active processes: 30\n" ++
       "max children reached: 0\n" ++
       "slow requests:        0\n").toList
    readErr := none }

/-- A report like `fpmStatus`, one connection later, whose `listen queue` line has
no number. -/
def brokenResponse : Response :=
  { Status := "200 OK".toList
    StatusCode := 200
    data :=
      ("pool:                 api\n" ++
       "process manager:      static\n" ++
       "start time:           28/Dec/2016:18:06:46 +0100\n" ++
       "start since:          65087\n" ++
       "accepted conn:        1049663\n" ++
       "listen queue:         unknown\n" ++
       "max listen queue:     0\n" ++
       "listen queue len:     0\n" ++
       "idle processes:       24\n" ++
       "active processes:     6\n" ++
       "total processes:      30\n" ++
       "max active processes: 30\n" ++
       "max children reached: 0\n" ++
       "slow requests:        0\n").toList
    readErr := none }

/-- A report of 15 lines whose fields are shifted by one: a line more at the top,
no line break at the end. -/
def shiftedResponse : Response :=
  { Status := "200 OK".toList
    StatusCode := 200
    data :=
      ("pool:                 api\n" ++
       "process manager:      static\n" ++
       "start time:           28/Dec/2016:18:06:46 +0100\n" ++
       "start since:          65086\n" ++
       "last restart:         0\n" ++
       "accepted conn:        1049700\n" ++
       "listen queue:         1\n" ++
       "max listen queue:     1\n" ++
       "listen queue len:     1\n" ++
       "idle processes:       20\n" ++
       "active processes:     10\n" ++
       "total processes:      30\n" ++
       "max active processes: 30\n" ++
       "max children reached: 1\n" ++
       "slow requests:        1").toList
    readErr := none }

/-- The report `fpmStatus` of another pool: other lines 0 to 3, and a text after
the last line break. -/
def otherPoolResponse : Response :=
  { Status := "200 OK".toList
    StatusCode := 200
    data :=
      ("pool:                 www\n" ++
       "process manager:      dynamic\n" ++
       "start time:           01/Jan/2017:00:00:00 +0100\n" ++
       "start since:          1\n" ++
       "accepted conn:        1049662\n" ++
       "listen queue:         0\n" ++
       "max listen queue:     0\n" ++
       "listen queue len:     0\n" ++
       "idle processes:       25\n" ++
       "active processes:     5\n" ++
       "total processes:      30\n" ++
       "max active processes: 30\n" ++
       "max children reached: 0\n" ++
       "slow requests:        0\n" ++
       "current connections:  7").toList
    readErr := none }

/-- A well-formed report behind the status 503. -/
def unavailableResponse : Response :=
  { Status := "503 Service Unavailable".toList
    StatusCode := 503
    data := fpmStatus
    readErr := none }

/-- What `Extract` decides about the text `l` of its line, for the expected `name`:
the error that it returns, or the integer that `strconv.Atoi` gave it. The exporter
plays no part in it. -/
def lineResult (name l : GoString) : Except ScrapeError Int :=
  if (Split l ':').length ≠ 2 ∨ (Split l ':').getD 0 [] ≠ name then
    .error (.unexpectedLine l name)
  else
    match Atoi (TrimSpace ((Split l ':').getD 1 [])) with
    | .error kind => .error (.numError (TrimSpace ((Split l ':').getD 1 [])) kind)
    | .ok v => .ok v

/-- The exporter with the gauge of `label` set to `float64(v)`, as `Extract` leaves
it when it accepts a line. -/
def Exporter.setGauge (e : Exporter) (label : GoString) (v : Int) : Exporter :=
  { e with currentConnections := e.currentConnections.Set label (float64 v) }

/-! ## `strings.Split` -/

theorem Split_ne_nil (l : GoString) (sep : Char) : Split l sep ≠ [] := by
  cases l with
  | nil => simp [Split]
  | cons c cs =>
    unfold Split
    split_ifs
    · simp
    · split <;> simp

theorem Split_length (l : GoString) (sep : Char) :
    (Split l sep).length = l.count sep + 1 := by
  induction l with
  | nil => simp [Split]
  | cons c cs ih =>
    unfold Split
    by_cases h : c = sep
    · subst h
      simp [ih]
    · have hne : Split cs c ≠ [] := Split_ne_nil cs c
      simp only [h, if_false]
      rw [List.count_cons_of_ne (Ne.symm h)] at *
      rw [← ih]
      split
      · next hnil => exact absurd hnil (Split_ne_nil cs sep)
      · next p ps hps => simp [hps]

theorem Split_of_not_mem (l : GoString) (sep : Char) (h : sep ∉ l) : Split l sep = [l] := by
  induction l with
  | nil => simp [Split]
  | cons c cs ih =>
    have hc : c ≠ sep := fun hc => h (by simp [hc])
    have hcs : sep ∉ cs := fun hm => h (List.mem_cons_of_mem _ hm)
    unfold Split
    simp [hc, ih hcs]

theorem Split_append_sep (a b : GoString) (sep : Char) (h : sep ∉ a) :
    Split (a ++ sep :: b) sep = a :: Split b sep := by
  induction a with
  | nil => simp [Split]
  | cons c cs ih =>
    have hc : c ≠ sep := fun hc => h (by simp [hc])
    have hcs : sep ∉ cs := fun hm => h (List.mem_cons_of_mem _ hm)
    rw [List.cons_append]
    conv_lhs => unfold Split
    simp [hc, ih hcs]

theorem Split_eq_pair (l a b : GoString) (sep : Char) (h : Split l sep = [a, b]) :
    l = a ++ sep :: b ∧ sep ∉ a ∧ sep ∉ b := by
  induction l generalizing a with
  | nil => simp [Split] at h
  | cons c cs ih =>
    unfold Split at h
    by_cases hc : c = sep
    · subst hc
      simp only [if_true] at h
      have h1 : a = [] := by injection h with h1 _; exact h1.symm
      have h2 : Split cs c = [b] := by injection h
      subst h1
      have hcount := Split_length cs c
      rw [h2] at hcount
      have hnot : c ∉ cs := by
        intro hm
        have := List.count_pos_iff.2 hm
        simp at hcount
        omega
      rw [Split_of_not_mem cs c hnot] at h2
      have : cs = b := by injection h2
      subst this
      exact ⟨rfl, by simp, hnot⟩
    · simp only [hc, if_false] at h
      split at h
      · simp at h
      · next p ps hps =>
        have h1 : c :: p = a := by injection h
        have h2 : ps = [b] := by injection h
        subst h1 h2
        obtain ⟨e1, e2, e3⟩ := ih p hps
        refine ⟨by rw [e1]; rfl, ?_, e3⟩
        intro hm
        rcases List.mem_cons.1 hm with hm | hm
        · exact hc hm.symm
        · exact e2 hm

theorem Split_colon_of_count_one (l : GoString) (h : l.count ':' = 1) :
    Split l ':' = [beforeColon l, afterColon l] := by
  have hmem : ':' ∈ l := List.count_pos_iff.1 (by omega)
  have hsplit : l = beforeColon l ++ ':' :: afterColon l := by
    unfold beforeColon afterColon
    have hd : (l.dropWhile fun c => c ≠ ':') ≠ [] := by
      intro hnil
      rw [List.dropWhile_eq_nil_iff] at hnil
      simpa using hnil ':' hmem
    obtain ⟨x, xs, hx⟩ := List.exists_cons_of_ne_nil hd
    have hhead := List.head_dropWhile_not (fun c => decide (c ≠ ':')) l hd
    simp only [hx, List.head_cons] at hhead
    have hx' : x = ':' := by simpa using hhead
    subst hx'
    conv_lhs => rw [← List.takeWhile_append_dropWhile (fun c => decide (c ≠ ':')) l]
    rw [hx]
    simp
  have hb : ':' ∉ beforeColon l := by
    unfold beforeColon
    intro hm
    have := List.mem_takeWhile_imp hm
    simp at this
  have ha : ':' ∉ afterColon l := by
    intro hm
    have h2 : 0 < (afterColon l).count ':' := List.count_pos_iff.2 hm
    have h3 : l.count ':' = (beforeColon l).count ':' + (1 + (afterColon l).count ':') := by
      conv_lhs => rw [hsplit]
      rw [List.count_append, List.count_cons_self]
      omega
    omega
  conv_lhs => rw [hsplit]
  rw [Split_append_sep _ _ _ hb, Split_of_not_mem _ _ ha]

/-! ## `strconv.Atoi` and `float64` -/

theorem digitsFold_ge (cs : GoString) (n : Nat) :
    n ≤ cs.foldl (fun n c => n * 10 + (c.toNat - 48)) n := by
  induction cs generalizing n with
  | nil => simp
  | cons c cs ih =>
    simp only [List.foldl_cons]
    exact le_trans (by omega) (ih _)

theorem parseUintLoop_ok_iff (cs : GoString) (n m : Nat) :
    parseUintLoop cs n = .ok m ↔
      cs.all isDigit = true ∧ m = cs.foldl (fun n c => n * 10 + (c.toNat - 48)) n ∧
        (cs ≠ [] → m < 2 ^ 64) := by
  induction cs generalizing n with
  | nil =>
    simp only [parseUintLoop, List.all_nil, List.foldl_nil, ne_eq, not_true_eq_false,
      false_implies, and_true, true_and]
    constructor
    · intro h; injection h with h; exact h.symm
    · intro h; rw [h]
  | cons c cs ih =>
    unfold parseUintLoop
    by_cases hd : isDigit c = true
    · by_cases hlt : n * 10 + (c.toNat - 48) < 2 ^ 64
      · simp only [hd, hlt, if_true, List.all_cons, Bool.true_and, List.foldl_cons, ne_eq,
          not_false_eq_true, true_implies, reduceCtorEq]
        rw [ih]
        constructor
        · rintro ⟨h1, h2, h3⟩
          refine ⟨h1, h2, ?_⟩
          by_cases hcs : cs = []
          · subst hcs; simpa [h2] using hlt
          · exact h3 hcs
        · rintro ⟨h1, h2, h3⟩
          exact ⟨h1, h2, fun _ => h3⟩
      · simp only [hd, hlt, if_true, if_false, List.all_cons, Bool.true_and, List.foldl_cons,
          ne_eq, not_false_eq_true, true_implies, reduceCtorEq, false_iff, not_and, not_lt]
        intro _ h2
        have := digitsFold_ge cs (n * 10 + (c.toNat - 48))
        omega
    · simp [hd]

theorem ParseUint_ok_iff (s : GoString) (m : Nat) :
    ParseUint s = .ok m ↔ s ≠ [] ∧ s.all isDigit = true ∧ m = digitsValue s ∧ m < 2 ^ 64 := by
  cases s with
  | nil => simp [ParseUint]
  | cons c cs =>
    simp only [ParseUint, parseUintLoop_ok_iff, digitsValue, ne_eq, reduceCtorEq,
      not_false_eq_true, true_implies, true_and]

theorem ParseUint_cases (s : GoString) :
    ParseUint s = .error .ErrSyntax ∨ ParseUint s = .error .ErrRange ∨
      ∃ m, ParseUint s = .ok m := by
  rcases h : ParseUint s with (k | m)
  · cases k <;> simp
  · simp

theorem Atoi_cons_ok_iff (c : Char) (cs : GoString) (v : Int) :
    Atoi (c :: cs) = .ok v ↔
      ∃ un, ParseUint (if c = '+' ∨ c = '-' then cs else c :: cs) = .ok un ∧
        (if c = '-' then un ≤ 2 ^ 63 ∧ v = -(un : Int) else un < 2 ^ 63 ∧ v = (un : Int)) := by
  simp only [Atoi]
  rcases ParseUint_cases (if c = '+' ∨ c = '-' then cs else c :: cs) with h | h | ⟨m, h⟩
  · simp [h]
  · simp [h]
  · rw [h]
    by_cases hm : c = '-'
    · simp only [hm, decide_True, Bool.true_eq_false, false_and, if_false, true_and, if_true,
        Except.ok.injEq, exists_eq_left']
      by_cases hr : 2 ^ 63 < m
      · simp only [hr, if_true, reduceCtorEq, false_iff, not_and]
        intro h1; omega
      · simp only [hr, if_false, Except.ok.injEq]
        constructor
        · intro h1; exact ⟨by omega, h1.symm⟩
        · intro h1; exact h1.2.symm
    · simp only [hm, decide_False, true_and, Bool.false_eq_true, false_and, if_false,
        Except.ok.injEq, exists_eq_left']
      by_cases hr : 2 ^ 63 ≤ m
      · simp only [hr, if_true, reduceCtorEq, false_iff, not_and]
        intro h1; omega
      · simp only [hr, if_false, Except.ok.injEq]
        constructor
        · intro h1; exact ⟨by omega, h1.symm⟩
        · intro h1; exact h1.2.symm

theorem Atoi_ok_iff (s : GoString) (v : Int) :
    Atoi s = .ok v ↔ IsBase10Integer s ∧ decimalValue s = v ∧ FitsInt v := by
  cases s with
  | nil => simp [Atoi, IsBase10Integer]
  | cons c cs =>
    have hpm : ('+' : Char) ≠ '-' := by decide
    rw [Atoi_cons_ok_iff]
    simp only [ParseUint_ok_iff, IsBase10Integer, decimalValue, FitsInt]
    by_cases hm : c = '-'
    · subst hm
      simp only [or_true, if_true]
      constructor
      · rintro ⟨un, ⟨h1, h2, h3, _⟩, h5, h6⟩
        subst h3
        refine ⟨⟨h1, h2⟩, h6.symm, ?_, ?_⟩ <;> omega
      · rintro ⟨⟨h1, h2⟩, h3, h4, h5⟩
        refine ⟨digitsValue cs, ⟨h1, h2, rfl, ?_⟩, ?_, h3.symm⟩ <;> omega
    · by_cases hp : c = '+'
      · subst hp
        simp only [true_or, if_true, hpm, if_false]
        constructor
        · rintro ⟨un, ⟨h1, h2, h3, _⟩, h5, h6⟩
          subst h3
          refine ⟨⟨h1, h2⟩, h6.symm, ?_, ?_⟩ <;> omega
        · rintro ⟨⟨h1, h2⟩, h3, h4, h5⟩
          refine ⟨digitsValue cs, ⟨h1, h2, rfl, ?_⟩, ?_, h3.symm⟩ <;> omega
      · simp only [hm, hp, or_self, if_false]
        constructor
        · rintro ⟨un, ⟨_, h2, h3, _⟩, h5, h6⟩
          subst h3
          refine ⟨h2, h6.symm, ?_, ?_⟩ <;> omega
        · rintro ⟨h2, h3, h4, h5⟩
          refine ⟨digitsValue (c :: cs), ⟨by simp, h2, rfl, ?_⟩, ?_, h3.symm⟩ <;> omega

theorem excessBits_of_lt (fuel n : Nat) (h : n < 2 ^ 53) : excessBits fuel n = 0 := by
  cases fuel with
  | zero => rfl
  | succ k => simp only [excessBits, h, if_true]

theorem roundNat53_of_lt (n : Nat) (h : n < 2 ^ 53) : roundNat53 n = n := by
  simp only [roundNat53, excessBits_of_lt n n h, pow_zero, Nat.mod_one, Nat.div_one, mul_zero,
    mul_one]
  have h1 : ¬ ((1 : Nat) < 0 ∨ ((1 : Nat) = 0 ∧ n % 2 = 1)) := by omega
  rw [if_neg h1]

theorem float64_exact (v : Int) (h1 : -(2 ^ 53 : Int) ≤ v) (h2 : v ≤ (2 ^ 53 : Int)) :
    float64 v = v := by
  have hn : v.natAbs ≤ 2 ^ 53 := by omega
  have hr : roundNat53 v.natAbs = v.natAbs := by
    rcases Nat.lt_or_ge v.natAbs (2 ^ 53) with h | h
    · exact roundNat53_of_lt _ h
    · have : v.natAbs = 2 ^ 53 := le_antisymm hn h
      rw [this]
      decide
  unfold float64
  rw [hr]
  split_ifs <;> omega

/-! ## The gauge vector -/

theorem value_Set_same (g : GaugeVec) (l : GoString) (v : Int) :
    (GaugeVec.Set g l v).value l = some v := by
  induction g with
  | nil => simp [GaugeVec.Set, GaugeVec.value]
  | cons p rest ih =>
    obtain ⟨k, w⟩ := p
    by_cases h : k = l
    · simp [GaugeVec.Set, GaugeVec.value, h]
    · simp [GaugeVec.Set, GaugeVec.value, h, ih]

theorem value_Set_other (g : GaugeVec) (l l1 : GoString) (v : Int) (h : l1 ≠ l) :
    (GaugeVec.Set g l v).value l1 = g.value l1 := by
  induction g with
  | nil => simp [GaugeVec.Set, GaugeVec.value, Ne.symm h]
  | cons p rest ih =>
    obtain ⟨k, w⟩ := p
    by_cases hk : k = l
    · subst hk
      simp [GaugeVec.Set, GaugeVec.value, Ne.symm h]
    · by_cases hk1 : k = l1
      · subst hk1
        simp [GaugeVec.Set, GaugeVec.value, hk]
      · simp [GaugeVec.Set, GaugeVec.value, hk, hk1, ih]

theorem labels_Set (g : GaugeVec) (l : GoString) (v : Int) :
    (GaugeVec.Set g l v).labels = if l ∈ g.labels then g.labels else g.labels ++ [l] := by
  induction g with
  | nil => simp [GaugeVec.Set, GaugeVec.labels]
  | cons p rest ih =>
    obtain ⟨k, w⟩ := p
    by_cases hk : k = l
    · subst hk
      simp [GaugeVec.Set, GaugeVec.labels]
    · have hk' : ¬ l = k := fun h => hk h.symm
      simp only [GaugeVec.labels] at ih
      simp only [GaugeVec.Set, hk, if_false, GaugeVec.labels, List.map_cons, List.mem_cons, hk',
        false_or, ih]
      split_ifs <;> simp

theorem mem_labels_Set (g : GaugeVec) (l l1 : GoString) (v : Int) :
    l1 ∈ (GaugeVec.Set g l v).labels ↔ l1 ∈ g.labels ∨ l1 = l := by
  rw [labels_Set]
  split_ifs with h
  · constructor
    · intro h1; exact Or.inl h1
    · rintro (h1 | h1)
      · exact h1
      · rw [h1]; exact h
  · simp

theorem nodup_labels_Set (g : GaugeVec) (l : GoString) (v : Int) (h : g.labels.Nodup) :
    (GaugeVec.Set g l v).labels.Nodup := by
  rw [labels_Set]
  split_ifs with hm
  · exact h
  · rw [List.nodup_append]
    refine ⟨h, by simp, ?_⟩
    intro a ha hb
    simp only [List.mem_singleton] at hb
    subst hb
    exact hm ha

theorem length_Collect (g : GaugeVec) : g.Collect.length = g.labels.length := by
  simp [GaugeVec.Collect, GaugeVec.labels]

theorem mem_Collect_of_value (g : GaugeVec) (l : GoString) (v : Int) (h : g.value l = some v) :
    Metric.gauge l v ∈ g.Collect := by
  induction g with
  | nil => simp [GaugeVec.value] at h
  | cons p rest ih =>
    obtain ⟨k, w⟩ := p
    by_cases hk : k = l
    · subst hk
      simp only [GaugeVec.value, if_true, Option.some.injEq] at h
      subst h
      simp [GaugeVec.Collect]
    · simp only [GaugeVec.value, hk, if_false] at h
      have := ih h
      simp only [GaugeVec.Collect, List.map_cons, List.mem_cons] at this ⊢
      exact Or.inr this

/-! ## `Extract`, one line -/

theorem Extract_eq (e : Exporter) (k : Nat) (name label : GoString) (lines : List GoString) :
    e.Extract k name label lines =
      match lines[k]? with
      | none => none
      | some l =>
        match lineResult name l with
        | .error err => some (e, some err)
        | .ok v => some (e.setGauge label v, none) := by
  unfold Exporter.Extract lineResult Exporter.setGauge
  cases lines[k]? with
  | none => rfl
  | some l =>
    simp only
    split_ifs with h
    · rfl
    · cases Atoi (TrimSpace ((Split l ':').getD 1 [])) <;> rfl

theorem Extract_congr (e : Exporter) (k : Nat) (name label : GoString)
    (lines lines1 : List GoString) (h : lines[k]? = lines1[k]?) :
    e.Extract k name label lines = e.Extract k name label lines1 := by
  rw [Extract_eq, Extract_eq, h]

theorem Extract_none_iff (e : Exporter) (k : Nat) (name label : GoString)
    (lines : List GoString) : e.Extract k name label lines = none ↔ lines.length ≤ k := by
  rw [Extract_eq]
  cases h : lines[k]? with
  | none =>
    simp only [true_iff]
    exact List.getElem?_eq_none_iff.1 h
  | some l =>
    have hlt : k < lines.length := by
      by_contra hc
      rw [List.getElem?_eq_none_iff.2 (by omega)] at h
      cases h
    simp only
    cases lineResult name l <;> simp <;> omega

/-! ## `Extract`, row after row -/

theorem extractAll_cons (lines : List GoString) (f : Nat × GoString × GoString)
    (rest : List (Nat × GoString × GoString)) (e : Exporter) :
    extractAll lines (f :: rest) e =
      match lines[f.1]? with
      | none => none
      | some l =>
        match lineResult f.2.1 l with
        | .error err => some (e, some err)
        | .ok v => extractAll lines rest (e.setGauge f.2.2 v) := by
  simp only [extractAll, Extract_eq]
  cases lines[f.1]? with
  | none => rfl
  | some l =>
    simp only
    rcases hr : lineResult f.2.1 l with err | v
    · rfl
    · rfl

theorem extractAll_isSome (lines : List GoString) (t : List (Nat × GoString × GoString))
    (e : Exporter) (h : ∀ f ∈ t, f.1 < lines.length) :
    ∃ e1 r, extractAll lines t e = some (e1, r) := by
  induction t generalizing e with
  | nil => exact ⟨e, none, rfl⟩
  | cons f rest ih =>
    rw [extractAll_cons]
    have hf : f.1 < lines.length := h f (List.mem_cons_self _ _)
    rw [List.getElem?_eq_getElem hf]
    simp only
    cases lineResult f.2.1 lines[f.1] with
    | error err => exact ⟨e, some err, rfl⟩
    | ok v => exact ih _ (fun g hg => h g (List.mem_cons_of_mem _ hg))

theorem extractAll_congr (lines lines1 : List GoString) (t : List (Nat × GoString × GoString))
    (e : Exporter) (h : ∀ f ∈ t, lines[f.1]? = lines1[f.1]?) :
    extractAll lines t e = extractAll lines1 t e := by
  induction t generalizing e with
  | nil => rfl
  | cons f rest ih =>
    rw [extractAll_cons, extractAll_cons, h f (List.mem_cons_self _ _)]
    cases lines1[f.1]? with
    | none => rfl
    | some l =>
      simp only
      cases lineResult f.2.1 l with
      | error err => rfl
      | ok v => exact ih _ (fun g hg => h g (List.mem_cons_of_mem _ hg))

theorem extractAll_frame (lines : List GoString) (t : List (Nat × GoString × GoString))
    (e e1 : Exporter) (r : Option ScrapeError) (h : extractAll lines t e = some (e1, r)) :
    e1.URI = e.URI ∧ e1.scrapeFailures = e.scrapeFailures ∧
      ∀ l, l ∉ t.map (fun f => f.2.2) →
        e1.currentConnections.value l = e.currentConnections.value l := by
  induction t generalizing e with
  | nil =>
    simp only [extractAll, Option.some.injEq, Prod.mk.injEq] at h
    obtain ⟨h1, _⟩ := h
    subst h1
    exact ⟨rfl, rfl, fun _ _ => rfl⟩
  | cons f rest ih =>
    rw [extractAll_cons] at h
    cases hl : lines[f.1]? with
    | none => rw [hl] at h; cases h
    | some l =>
      rw [hl] at h
      simp only at h
      cases hr : lineResult f.2.1 l with
      | error err =>
        rw [hr] at h
        simp only [Option.some.injEq, Prod.mk.injEq] at h
        obtain ⟨h1, _⟩ := h
        subst h1
        exact ⟨rfl, rfl, fun _ _ => rfl⟩
      | ok v =>
        rw [hr] at h
        obtain ⟨a, b, c⟩ := ih _ h
        refine ⟨a, b, ?_⟩
        intro l1 hl1
        simp only [List.map_cons, List.mem_cons, not_or] at hl1
        rw [c l1 hl1.2]
        exact value_Set_other _ _ _ _ hl1.1

theorem extractAll_labels (lines : List GoString) (t : List (Nat × GoString × GoString))
    (e e1 : Exporter) (r : Option ScrapeError) (h : extractAll lines t e = some (e1, r)) :
    (∀ l, l ∈ e1.currentConnections.labels →
        l ∈ e.currentConnections.labels ∨ l ∈ t.map (fun f => f.2.2)) ∧
      (∀ l, l ∈ e.currentConnections.labels → l ∈ e1.currentConnections.labels) ∧
      (e.currentConnections.labels.Nodup → e1.currentConnections.labels.Nodup) ∧
      (r = none → ∀ l, l ∈ t.map (fun f => f.2.2) → l ∈ e1.currentConnections.labels) := by
  induction t generalizing e with
  | nil =>
    simp only [extractAll, Option.some.injEq, Prod.mk.injEq] at h
    obtain ⟨h1, _⟩ := h
    subst h1
    exact ⟨fun _ hl => Or.inl hl, fun _ hl => hl, fun hn => hn, fun _ l hl => by simp at hl⟩
  | cons f rest ih =>
    rw [extractAll_cons] at h
    cases hl : lines[f.1]? with
    | none => rw [hl] at h; cases h
    | some l =>
      rw [hl] at h
      simp only at h
      cases hr : lineResult f.2.1 l with
      | error err =>
        rw [hr] at h
        simp only [Option.some.injEq, Prod.mk.injEq] at h
        obtain ⟨h1, h2⟩ := h
        subst h1
        subst h2
        exact ⟨fun _ hl => Or.inl hl, fun _ hl => hl, fun hn => hn, fun hc => by cases hc⟩
      | ok v =>
        rw [hr] at h
        obtain ⟨a, b, c, d⟩ := ih _ h
        simp only [Exporter.setGauge] at a b c d
        refine ⟨?_, ?_, ?_, ?_⟩
        · intro l1 hl1
          rcases a l1 hl1 with h1 | h1
          · rcases (mem_labels_Set _ _ _ _).1 h1 with h2 | h2
            · exact Or.inl h2
            · exact Or.inr (by simp [h2])
          · exact Or.inr (by simp only [List.map_cons, List.mem_cons]; exact Or.inr h1)
        · intro l1 hl1
          exact b l1 ((mem_labels_Set _ _ _ _).2 (Or.inl hl1))
        · intro hn
          exact c (nodup_labels_Set _ _ _ hn)
        · intro hnone l1 hl1
          simp only [List.map_cons, List.mem_cons] at hl1
          rcases hl1 with h1 | h1
          · exact b l1 ((mem_labels_Set _ _ _ _).2 (Or.inr h1))
          · exact d hnone l1 h1

theorem extractAll_ok_values (lines : List GoString) (t : List (Nat × GoString × GoString))
    (e e1 : Exporter) (h : extractAll lines t e = some (e1, none))
    (hnd : (t.map (fun f => f.2.2)).Nodup) :
    ∀ f ∈ t, ∃ l v, lines[f.1]? = some l ∧ lineResult f.2.1 l = .ok v ∧
      e1.currentConnections.value f.2.2 = some (float64 v) := by
  induction t generalizing e with
  | nil => intro f hf; cases hf
  | cons g rest ih =>
    rw [extractAll_cons] at h
    simp only [List.map_cons, List.nodup_cons] at hnd
    cases hl : lines[g.1]? with
    | none => rw [hl] at h; cases h
    | some l =>
      rw [hl] at h
      simp only at h
      cases hr : lineResult g.2.1 l with
      | error err => rw [hr] at h; simp at h
      | ok v =>
        rw [hr] at h
        intro f hf
        rcases List.mem_cons.1 hf with hfg | hfr
        · subst hfg
          refine ⟨l, v, hl, hr, ?_⟩
          rw [(extractAll_frame _ _ _ _ _ h).2.2 f.2.2 hnd.1]
          exact value_Set_same _ _ _
        · exact ih _ h hnd.2 f hfr

theorem extractAll_ok_of_all (lines : List GoString) (t : List (Nat × GoString × GoString))
    (e : Exporter)
    (h : ∀ f ∈ t, ∃ l v, lines[f.1]? = some l ∧ lineResult f.2.1 l = .ok v) :
    ∃ e1, extractAll lines t e = some (e1, none) := by
  induction t generalizing e with
  | nil => exact ⟨e, rfl⟩
  | cons g rest ih =>
    obtain ⟨l, v, hl, hr⟩ := h g (List.mem_cons_self _ _)
    rw [extractAll_cons, hl]
    simp only [hr]
    exact ih _ (fun f hf => h f (List.mem_cons_of_mem _ hf))

theorem extractAll_append (lines : List GoString) (pre post : List (Nat × GoString × GoString))
    (e e1 : Exporter) (h : extractAll lines pre e = some (e1, none)) :
    extractAll lines (pre ++ post) e = extractAll lines post e1 := by
  induction pre generalizing e with
  | nil =>
    simp only [extractAll, Option.some.injEq, Prod.mk.injEq, and_true] at h
    subst h
    rfl
  | cons g rest ih =>
    rw [List.cons_append, extractAll_cons]
    rw [extractAll_cons] at h
    cases hl : lines[g.1]? with
    | none => rw [hl] at h; cases h
    | some l =>
      rw [hl] at h
      simp only at h ⊢
      cases hr : lineResult g.2.1 l with
      | error err => rw [hr] at h; simp at h
      | ok v =>
        rw [hr] at h
        exact ih _ h

theorem extractAll_error_split (lines : List GoString) (t : List (Nat × GoString × GoString))
    (e e1 : Exporter) (err : ScrapeError) (h : extractAll lines t e = some (e1, some err)) :
    ∃ pre f post l, t = pre ++ f :: post ∧ extractAll lines pre e = some (e1, none) ∧
      lines[f.1]? = some l ∧ lineResult f.2.1 l = .error err := by
  induction t generalizing e with
  | nil => simp [extractAll] at h
  | cons g rest ih =>
    rw [extractAll_cons] at h
    cases hl : lines[g.1]? with
    | none => rw [hl] at h; cases h
    | some l =>
      rw [hl] at h
      simp only at h
      cases hr : lineResult g.2.1 l with
      | error err1 =>
        rw [hr] at h
        simp only [Option.some.injEq, Prod.mk.injEq] at h
        obtain ⟨h1, h2⟩ := h
        subst h1
        subst h2
        exact ⟨[], g, rest, l, rfl, rfl, hl, hr⟩
      | ok v =>
        rw [hr] at h
        obtain ⟨pre, f, post, l1, h1, h2, h3, h4⟩ := ih _ h
        refine ⟨g :: pre, f, post, l1, by rw [h1]; rfl, ?_, h3, h4⟩
        rw [extractAll_cons, hl]
        simp only [hr]
        exact h2

/-! ## `collect` and `Collect` -/

theorem collect_status (e : Exporter) (resp : Response) (h : ¬ resp.statusOk) :
    e.collect (.response resp) =
      some (e, some (.status resp.Status resp.StatusCode
        (match resp.readErr with
          | some msg => msg
          | none => resp.data))) := by
  have h1 : resp.StatusCode < 200 ∨ resp.StatusCode ≥ 400 := by
    unfold Response.statusOk at h
    omega
  simp only [Exporter.collect, h1, if_true]

theorem collect_lineCount (e : Exporter) (resp : Response) (h : resp.statusOk)
    (hn : (Split resp.data '\n').length ≠ 15) :
    e.collect (.response resp) = some (e, some (.lineCount (Split resp.data '\n'))) := by
  have h1 : ¬ (resp.StatusCode < 200 ∨ resp.StatusCode ≥ 400) := by
    unfold Response.statusOk at h
    omega
  simp only [Exporter.collect, h1, if_false, hn, ne_eq, not_false_eq_true, if_true]

theorem collect_extract (e : Exporter) (resp : Response) (h : resp.statusOk)
    (hn : (Split resp.data '\n').length = 15) :
    e.collect (.response resp) = extractAll (Split resp.data '\n') fieldTable e := by
  have h1 : ¬ (resp.StatusCode < 200 ∨ resp.StatusCode ≥ 400) := by
    unfold Response.statusOk at h
    omega
  simp only [Exporter.collect, h1, if_false, hn, ne_eq, not_true_eq_false]
  rfl

theorem fieldTable_index_lt (f : Nat × GoString × GoString) (h : f ∈ fieldTable) : f.1 < 15 := by
  simp only [fieldTable, List.mem_cons, List.mem_singleton, List.not_mem_nil, or_false] at h
  rcases h with h | h | h | h | h | h | h | h | h | h <;> subst h <;> decide

theorem fieldLabels_nodup : fieldLabels.Nodup := by decide

theorem collect_cases (e : Exporter) (r : FetchResult) :
    (∃ err, e.collect r = some (e, some err) ∧
        ((∃ msg, r = .failed msg) ∨ ∃ resp, r = .response resp ∧
          (¬ resp.statusOk ∨ (Split resp.data '\n').length ≠ 15))) ∨
      ∃ resp, r = .response resp ∧ resp.statusOk ∧ (Split resp.data '\n').length = 15 ∧
        e.collect r = extractAll (Split resp.data '\n') fieldTable e := by
  cases r with
  | failed msg => exact Or.inl ⟨_, rfl, Or.inl ⟨msg, rfl⟩⟩
  | response resp =>
    by_cases h : resp.statusOk
    · by_cases hn : (Split resp.data '\n').length = 15
      · exact Or.inr ⟨resp, rfl, h, hn, collect_extract e resp h hn⟩
      · exact Or.inl ⟨_, collect_lineCount e resp h hn, Or.inr ⟨resp, rfl, Or.inr hn⟩⟩
    · exact Or.inl ⟨_, collect_status e resp h, Or.inr ⟨resp, rfl, Or.inl h⟩⟩

theorem collect_isSome (e : Exporter) (r : FetchResult) :
    ∃ e1 err, e.collect r = some (e1, err) := by
  rcases collect_cases e r with ⟨err, h, _⟩ | ⟨resp, _, _, hn, h⟩
  · exact ⟨e, some err, h⟩
  · rw [h]
    exact extractAll_isSome _ _ _ (fun f hf => by rw [hn]; exact fieldTable_index_lt f hf)

theorem collect_frame (e e1 : Exporter) (r : FetchResult) (err : Option ScrapeError)
    (h : e.collect r = some (e1, err)) :
    e1.URI = e.URI ∧ e1.scrapeFailures = e.scrapeFailures ∧
      (∀ l, l ∉ fieldLabels → e1.currentConnections.value l = e.currentConnections.value l) ∧
      (∀ l, l ∈ e1.currentConnections.labels →
        l ∈ e.currentConnections.labels ∨ l ∈ fieldLabels) ∧
      (∀ l, l ∈ e.currentConnections.labels → l ∈ e1.currentConnections.labels) ∧
      (e.currentConnections.labels.Nodup → e1.currentConnections.labels.Nodup) ∧
      (err = none → ∀ l, l ∈ fieldLabels → l ∈ e1.currentConnections.labels) := by
  rcases collect_cases e r with ⟨err1, h1, _⟩ | ⟨resp, _, _, _, h1⟩
  · rw [h1] at h
    simp only [Option.some.injEq, Prod.mk.injEq] at h
    obtain ⟨h2, h3⟩ := h
    subst h2
    subst h3
    exact ⟨rfl, rfl, fun _ _ => rfl, fun _ hl => Or.inl hl, fun _ hl => hl, fun hn => hn,
      fun hc => by cases hc⟩
  · rw [h1] at h
    obtain ⟨a, b, c⟩ := extractAll_frame _ _ _ _ _ h
    obtain ⟨d1, d2, d3, d4⟩ := extractAll_labels _ _ _ _ _ h
    exact ⟨a, b, c, d1, d2, d3, d4⟩

theorem Collect_eq (e : Exporter) (r : FetchResult) :
    ∃ e1 err, e.collect r = some (e1, err) ∧
      e.Collect r = some
        (match err with
          | some _ =>
            ({ e1 with scrapeFailures := e1.scrapeFailures + 1 },
              Metric.counter (e1.scrapeFailures + 1) :: e1.currentConnections.Collect)
          | none => (e1, e1.currentConnections.Collect)) := by
  obtain ⟨e1, err, h⟩ := collect_isSome e r
  refine ⟨e1, err, h, ?_⟩
  unfold Exporter.Collect
  rw [h]
  cases err <;> rfl

/-- The invariant of the reachable states: a child of the gauge vector has one of
the ten labels, and no two children have the same label. -/
theorem reachable_labels (e : Exporter) (h : Reachable e) :
    e.currentConnections.labels.Nodup ∧ ∀ l, l ∈ e.currentConnections.labels → l ∈ fieldLabels := by
  induction h with
  | init uri => exact ⟨List.nodup_nil, fun l hl => by cases hl⟩
  | @step e0 e1 out r _ hstep ih =>
    obtain ⟨e2, err, hc, hC⟩ := Collect_eq e0 r
    rw [hC] at hstep
    obtain ⟨_, _, _, d1, _, d3, _⟩ := collect_frame _ _ _ _ hc
    have hcc : e1.currentConnections = e2.currentConnections := by
      cases err <;> simp only [Option.some.injEq, Prod.mk.injEq] at hstep <;>
        rw [← hstep.1]
    rw [hcc]
    refine ⟨d3 ih.1, fun l hl => ?_⟩
    rcases d1 l hl with h1 | h1
    · exact ih.2 l h1
    · exact h1

theorem length_of_labels (ls : List GoString) (h1 : ls.Nodup)
    (h2 : ∀ l, l ∈ ls → l ∈ fieldLabels) (h3 : ∀ l, l ∈ fieldLabels → l ∈ ls) :
    ls.length = 10 := by
  have hperm : ls.Perm fieldLabels :=
    (List.perm_ext_iff_of_nodup h1 fieldLabels_nodup).2 (fun l => ⟨h2 l, h3 l⟩)
  rw [hperm.length_eq]
  rfl

/-! ## Accepted and rejected lines -/

theorem Extract_error_iff (e e1 : Exporter) (k : Nat) (name label : GoString)
    (lines : List GoString) (err : ScrapeError) :
    e.Extract k name label lines = some (e1, some err) ↔
      e1 = e ∧ ∃ l, lines[k]? = some l ∧ lineResult name l = .error err := by
  rw [Extract_eq]
  cases lines[k]? with
  | none => simp
  | some l =>
    simp only [Option.some.injEq, exists_eq_left']
    rcases hr : lineResult name l with err1 | v
    · simp only [Option.some.injEq, Prod.mk.injEq, Except.error.injEq]
      constructor
      · rintro ⟨h1, h2⟩; exact ⟨h1.symm, h2⟩
      · rintro ⟨h1, h2⟩; exact ⟨h1.symm, h2⟩
    · simp

theorem Extract_ok_iff (e e1 : Exporter) (k : Nat) (name label : GoString)
    (lines : List GoString) :
    e.Extract k name label lines = some (e1, none) ↔
      ∃ l v, lines[k]? = some l ∧ lineResult name l = .ok v ∧ e1 = e.setGauge label v := by
  rw [Extract_eq]
  cases lines[k]? with
  | none => simp
  | some l =>
    simp only
    constructor
    · intro h
      rcases hr : lineResult name l with err1 | v
      · rw [hr] at h; simp at h
      · rw [hr] at h
        simp only [Option.some.injEq, Prod.mk.injEq, and_true] at h
        exact ⟨l, v, rfl, hr, h.symm⟩
    · rintro ⟨l1, v1, hl1, hv, he⟩
      simp only [Option.some.injEq] at hl1
      subst hl1
      rw [hv, he]

theorem extractAll_first_reject (lines : List GoString)
    (pre post : List (Nat × GoString × GoString)) (f : Nat × GoString × GoString)
    (e : Exporter) (l : GoString) (err : ScrapeError)
    (hpre : ∀ g ∈ pre, ∃ l v, lines[g.1]? = some l ∧ lineResult g.2.1 l = .ok v)
    (hl : lines[f.1]? = some l) (hr : lineResult f.2.1 l = .error err) :
    ∃ e1, extractAll lines pre e = some (e1, none) ∧
      extractAll lines (pre ++ f :: post) e = some (e1, some err) := by
  obtain ⟨e1, h1⟩ := extractAll_ok_of_all lines pre e hpre
  refine ⟨e1, h1, ?_⟩
  rw [extractAll_append _ _ _ _ _ h1, extractAll_cons, hl]
  simp only [hr]

theorem fieldTable_sorted : fieldTable.Pairwise (fun a b => a.1 < b.1) := by decide

theorem fieldTable_index_ge (f : Nat × GoString × GoString) (h : f ∈ fieldTable) : 4 ≤ f.1 := by
  simp only [fieldTable, List.mem_cons, List.mem_singleton, List.not_mem_nil, or_false] at h
  rcases h with h | h | h | h | h | h | h | h | h | h <;> subst h <;> decide

/-- A row of the field table cuts the table in the rows of smaller index, before
it, and the rows of larger index, after it; the labels of the rows before it are
not labels of the other rows. -/
theorem fieldTable_split (pre post : List (Nat × GoString × GoString))
    (f : Nat × GoString × GoString) (h : fieldTable = pre ++ f :: post) :
    (∀ g ∈ pre, g.1 < f.1) ∧ (∀ g ∈ post, f.1 < g.1) ∧
      (∀ g ∈ fieldTable, g.1 < f.1 → g ∈ pre) ∧
      (∀ g ∈ fieldTable, f.1 ≤ g.1 → g.2.2 ∉ pre.map (fun f => f.2.2)) := by
  have hs := fieldTable_sorted
  rw [h, List.pairwise_append] at hs
  obtain ⟨_, hs2, hs3⟩ := hs
  rw [List.pairwise_cons] at hs2
  have hpre : ∀ g ∈ pre, g.1 < f.1 := fun g hg => hs3 g hg f (List.mem_cons_self _ _)
  have hnd := fieldLabels_nodup
  unfold fieldLabels at hnd
  rw [h, List.map_append, List.nodup_append] at hnd
  obtain ⟨_, _, hdis⟩ := hnd
  refine ⟨hpre, hs2.1, ?_, ?_⟩
  · intro g hg hlt
    rw [h, List.mem_append] at hg
    rcases hg with hg | hg
    · exact hg
    · rcases List.mem_cons.1 hg with hg | hg
      · subst hg; omega
      · have := hs2.1 g hg; omega
  · intro g hg hle hmem
    rw [h, List.mem_append] at hg
    rcases hg with hg | hg
    · have := hpre g hg; omega
    · exact hdis hmem (List.mem_map_of_mem (fun f => f.2.2) hg)

theorem Split_getD_zero (l : GoString) (sep : Char) :
    (Split l sep).getD 0 [] = l.takeWhile fun c => c ≠ sep := by
  induction l with
  | nil => simp [Split]
  | cons c cs ih =>
    unfold Split
    by_cases hc : c = sep
    · simp [hc]
    · simp only [hc, if_false]
      have hd : decide (c ≠ sep) = true := by simpa using hc
      rw [List.takeWhile_cons, hd]
      simp only [if_true]
      rw [← ih]
      split
      · next hnil => exact absurd hnil (Split_ne_nil cs sep)
      · next p ps hps => simp [hps]

theorem lineResult_wellFormed (name l : GoString) (h : WellFormedLine name l)
    (hf : FitsInt (writtenInt l)) : lineResult name l = .ok (writtenInt l) := by
  obtain ⟨h1, h2, h3⟩ := h
  have hs := Split_colon_of_count_one l h1
  have ha : Atoi (TrimSpace (afterColon l)) = .ok (writtenInt l) :=
    (Atoi_ok_iff _ _).2 ⟨h3, rfl, hf⟩
  unfold lineResult
  rw [hs]
  simp only [List.length_cons, List.length_singleton, List.length_nil, ne_eq, List.getD_cons_zero,
    List.getD_cons_succ, h2]
  simp [ha]

theorem lineResult_ok_iff (name l : GoString) (v : Int) :
    lineResult name l = .ok v ↔
      ∃ t, Split l ':' = [name, t] ∧ IsBase10Integer (TrimSpace t) ∧
        decimalValue (TrimSpace t) = v ∧ FitsInt v := by
  unfold lineResult
  constructor
  · intro h
    split_ifs at h with hc
    simp only [ne_eq, not_or, not_not] at hc
    obtain ⟨hlen, hname⟩ := hc
    obtain ⟨a, b, hab⟩ : ∃ a b, Split l ':' = [a, b] := by
      match hs : Split l ':', hlen with
      | [a, b], _ => exact ⟨a, b, rfl⟩
    rw [hab] at h hname
    simp only [List.getD_cons_zero, List.getD_cons_succ] at h hname
    subst hname
    refine ⟨b, hab, ?_⟩
    rcases ha : Atoi (TrimSpace b) with k | w
    · rw [ha] at h; cases h
    · rw [ha] at h
      simp only [Except.ok.injEq] at h
      subst h
      exact (Atoi_ok_iff _ _).1 ha
  · rintro ⟨t, hs, h1, h2, h3⟩
    have ha : Atoi (TrimSpace t) = .ok v := (Atoi_ok_iff _ _).2 ⟨h1, h2, h3⟩
    rw [hs]
    simp [ha]

theorem getElem?_lineAt (lines : List GoString) (k : Nat) (h : k < lines.length) :
    lines[k]? = some (lineAt lines k) := by
  unfold lineAt
  rw [List.getD_eq_getElem?_getD, List.getElem?_eq_getElem h]
  rfl

theorem Collect_of_collect_ok (e e1 : Exporter) (r : FetchResult)
    (h : e.collect r = some (e1, none)) :
    e.Collect r = some (e1, e1.currentConnections.Collect) := by
  unfold Exporter.Collect
  rw [h]

theorem Collect_of_collect_error (e e1 : Exporter) (r : FetchResult) (err : ScrapeError)
    (h : e.collect r = some (e1, some err)) :
    e.Collect r = some ({ e1 with scrapeFailures := e1.scrapeFailures + 1 },
      Metric.counter (e1.scrapeFailures + 1) :: e1.currentConnections.Collect) := by
  unfold Exporter.Collect
  rw [h]

theorem counter_not_mem_Collect (g : GaugeVec) (n : Nat) : Metric.counter n ∉ g.Collect := by
  simp [GaugeVec.Collect]

theorem roundFailed_iff (e : Exporter) (r : FetchResult) :
    roundFailed e r = true ↔ ∃ e1 err, e.collect r = some (e1, some err) := by
  unfold roundFailed
  rcases h : e.collect r with _ | ⟨e1, _ | err⟩
  · simp
  · simp
  · simp

theorem roundFailed_false_iff (e : Exporter) (r : FetchResult) :
    roundFailed e r = false ↔ ∃ e1, e.collect r = some (e1, none) := by
  obtain ⟨e1, err, h⟩ := collect_isSome e r
  unfold roundFailed
  rw [h]
  cases err <;> simp

theorem lineResult_name_mismatch (name l : GoString) (h : beforeColon l ≠ name) :
    lineResult name l = .error (.unexpectedLine l name) := by
  unfold lineResult
  rw [if_pos]
  right
  rw [Split_getD_zero]
  exact h

theorem pre_eq_nil_of_four (pre : List (Nat × GoString × GoString))
    (h1 : ∀ g ∈ pre, g ∈ fieldTable) (h2 : ∀ g ∈ pre, g.1 < 4) : pre = [] := by
  rw [List.eq_nil_iff_forall_not_mem]
  intro g hg
  have := fieldTable_index_ge g (h1 g hg)
  have := h2 g hg
  omega

theorem Collect_counter (e : Exporter) (r : FetchResult) :
    ∃ e1 out, e.Collect r = some (e1, out) ∧
      e1.scrapeFailures = e.scrapeFailures + (if roundFailed e r = true then 1 else 0) := by
  obtain ⟨e1, err, h⟩ := collect_isSome e r
  obtain ⟨_, hsf, _⟩ := collect_frame _ _ _ _ h
  cases err with
  | none =>
    have hf : roundFailed e r = false := (roundFailed_false_iff e r).2 ⟨e1, h⟩
    exact ⟨e1, _, Collect_of_collect_ok _ _ _ h, by simp [hf, hsf]⟩
  | some err =>
    have hf : roundFailed e r = true := (roundFailed_iff e r).2 ⟨e1, err, h⟩
    exact ⟨_, _, Collect_of_collect_error _ _ _ _ h, by simp [hf, hsf]⟩

theorem runCollects_counter (e : Exporter) (rs : List FetchResult) :
    ∃ e1 flags, runCollects e rs = some (e1, flags) ∧ flags.length = rs.length ∧
      e1.scrapeFailures = e.scrapeFailures + flags.count true := by
  induction rs generalizing e with
  | nil => exact ⟨e, [], rfl, rfl, rfl⟩
  | cons r rs ih =>
    obtain ⟨e1, out, h1, h2⟩ := Collect_counter e r
    obtain ⟨e2, flags, h3, h4, h5⟩ := ih e1
    refine ⟨e2, roundFailed e r :: flags, ?_, by simp [h4], ?_⟩
    · simp only [runCollects, h1, h3]
    · rw [h5, h2]
      cases roundFailed e r
      · simp
      · simp only [if_true, List.count_cons_self]
        omega

theorem count_true_of_all (flags : List Bool) (h : ∀ b ∈ flags, b = true) :
    flags.count true = flags.length := by
  rw [List.count_eq_length]
  intro b hb
  exact (h b hb).symm

theorem perm_fieldLabels_iff (ls : List GoString) (h : ls.Nodup) :
    ls.Perm fieldLabels ↔ ∀ l, l ∈ ls ↔ l ∈ fieldLabels :=
  List.perm_ext_iff_of_nodup h fieldLabels_nodup

theorem Collect_gauges (e e1 : Exporter) (r : FetchResult) (out : List Metric)
    (h : e.Collect r = some (e1, out)) :
    ∃ e0 err, e.collect r = some (e0, err) ∧ e1.currentConnections = e0.currentConnections := by
  obtain ⟨e0, err, hc, hC⟩ := Collect_eq e r
  rw [hC] at h
  refine ⟨e0, err, hc, ?_⟩
  cases err <;> simp only [Option.some.injEq, Prod.mk.injEq] at h <;> rw [← h.1]

/-! ## The claims -/

/-- C1, amended: from every reachable state, for a response with a status in
[200, 400) whose body splits into 15 lines such that each of the lines 4 to 13 has
exactly one ':', the expected name before it and after it, trimmed, a base-10
integer that fits the 64-bit int, `Collect` leaves the failure counter as it was,
leaves each of the ten labels with the value `float64` of the integer of its line
(the integer itself when its magnitude is at most 2^53) and sends exactly 10
samples: the ten gauges, and no sample of the failure counter. -/
theorem C1_wellformed_report (e : Exporter) (resp : Response) (he : Reachable e)
    (hs : resp.statusOk) (hn : (Split resp.data '\n').length = 15)
    (hw : ∀ f ∈ fieldTable, WellFormedLine f.2.1 (lineAt (Split resp.data '\n') f.1) ∧
      FitsInt (writtenInt (lineAt (Split resp.data '\n') f.1))) :
    ∃ e1 out, e.Collect (.response resp) = some (e1, out) ∧
      e1.scrapeFailures = e.scrapeFailures ∧
      (∀ f ∈ fieldTable,
        e1.currentConnections.value f.2.2 =
            some (float64 (writtenInt (lineAt (Split resp.data '\n') f.1))) ∧
          (-(2 ^ 53 : Int) ≤ writtenInt (lineAt (Split resp.data '\n') f.1) ∧
              writtenInt (lineAt (Split resp.data '\n') f.1) ≤ (2 ^ 53 : Int) →
            e1.currentConnections.value f.2.2 =
              some (writtenInt (lineAt (Split resp.data '\n') f.1)))) ∧
      out.length = 10 ∧
      (∀ n, Metric.counter n ∉ out) ∧
      (∀ f ∈ fieldTable,
        Metric.gauge f.2.2 (float64 (writtenInt (lineAt (Split resp.data '\n') f.1))) ∈ out) := by
  have hline : ∀ f ∈ fieldTable,
      (Split resp.data '\n')[f.1]? = some (lineAt (Split resp.data '\n') f.1) := fun f hf =>
    getElem?_lineAt _ _ (by rw [hn]; exact fieldTable_index_lt f hf)
  have hres : ∀ f ∈ fieldTable, lineResult f.2.1 (lineAt (Split resp.data '\n') f.1) =
      .ok (writtenInt (lineAt (Split resp.data '\n') f.1)) := fun f hf =>
    lineResult_wellFormed _ _ (hw f hf).1 (hw f hf).2
  obtain ⟨e1, h1⟩ := extractAll_ok_of_all (Split resp.data '\n') fieldTable e
    (fun f hf => ⟨_, _, hline f hf, hres f hf⟩)
  have hc : e.collect (.response resp) = some (e1, none) := by
    rw [collect_extract e resp hs hn]; exact h1
  have hval : ∀ f ∈ fieldTable, e1.currentConnections.value f.2.2 =
      some (float64 (writtenInt (lineAt (Split resp.data '\n') f.1))) := by
    intro f hf
    obtain ⟨l, v, a, b, c⟩ := extractAll_ok_values _ _ _ _ h1 fieldLabels_nodup f hf
    rw [hline f hf] at a
    simp only [Option.some.injEq] at a
    subst a
    rw [hres f hf] at b
    simp only [Except.ok.injEq] at b
    rw [c, ← b]
  obtain ⟨_, hsf, _⟩ := extractAll_frame _ _ _ _ _ h1
  obtain ⟨d1, _, d3, d4⟩ := extractAll_labels _ _ _ _ _ h1
  obtain ⟨r1, r2⟩ := reachable_labels e he
  refine ⟨e1, e1.currentConnections.Collect, Collect_of_collect_ok _ _ _ hc, hsf, ?_, ?_,
    fun n => counter_not_mem_Collect _ n, fun f hf => mem_Collect_of_value _ _ _ (hval f hf)⟩
  · intro f hf
    refine ⟨hval f hf, fun hb => ?_⟩
    rw [hval f hf, float64_exact _ hb.1 hb.2]
  · rw [length_Collect]
    refine length_of_labels _ (d3 r1) (fun l hl => ?_) (d4 rfl)
    rcases d1 l hl with h2 | h2
    · exact r2 l h2
    · exact h2

set_option maxRecDepth 100000 in
/-- C1, witness: the report `fpmStatus` of the test, from the fresh exporter; the
gauges get 1049662, 25, 5, 30, 30 and five times 0. -/
theorem C1_wellformed_report_witness :
    (∃ e1 out, freshExporter.Collect (.response testResponse) = some (e1, out) ∧
      e1.scrapeFailures = freshExporter.scrapeFailures ∧
      (∀ f ∈ fieldTable,
        e1.currentConnections.value f.2.2 =
            some (float64 (writtenInt (lineAt (Split testResponse.data '\n') f.1))) ∧
          (-(2 ^ 53 : Int) ≤ writtenInt (lineAt (Split testResponse.data '\n') f.1) ∧
              writtenInt (lineAt (Split testResponse.data '\n') f.1) ≤ (2 ^ 53 : Int) →
            e1.currentConnections.value f.2.2 =
              some (writtenInt (lineAt (Split testResponse.data '\n') f.1)))) ∧
      out.length = 10 ∧
      (∀ n, Metric.counter n ∉ out) ∧
      (∀ f ∈ fieldTable,
        Metric.gauge f.2.2 (float64 (writtenInt (lineAt (Split testResponse.data '\n') f.1)))
          ∈ out)) ∧
    fieldTable.map (fun f => writtenInt (lineAt (Split testResponse.data '\n') f.1)) =
      [1049662, 0, 0, 0, 25, 5, 30, 30, 0, 0] :=
  ⟨C1_wellformed_report freshExporter testResponse (Reachable.init _) (by decide) (by decide)
    (by decide), by decide⟩

set_option maxRecDepth 100000 in
/-- C1, counterexample: a report of 15 lines with the status 200 whose lines 4 to
13 all have one ':', the expected name and a base-10 integer, the first of them
2^63: `Collect` increments the failure counter and sends its sample, and no
gauge. -/
theorem C1_counterexample_int_range :
    Reachable freshExporter ∧ overflowResponse.statusOk ∧
      (Split overflowResponse.data '\n').length = 15 ∧
      (∀ f ∈ fieldTable,
        WellFormedLine f.2.1 (lineAt (Split overflowResponse.data '\n') f.1)) ∧
      writtenInt (lineAt (Split overflowResponse.data '\n') 4) = 2 ^ 63 ∧
      freshExporter.scrapeFailures = 0 ∧
      freshExporter.Collect (.response overflowResponse) =
        some ({ freshExporter with scrapeFailures := 1 }, [Metric.counter 1]) :=
  ⟨Reachable.init _, by decide, by decide, by decide, by decide, by decide, by decide⟩

/-- C3: for every exporter and every response whose status code is outside
[200, 400), whatever its body, or whose body does not split on the line break into
exactly 15 pieces (it has 15 pieces exactly when it has 14 line breaks), `Collect`
increments the failure counter by exactly 1 and leaves the gauge vector, labels and
values, as it was; it sends the sample of the counter and the gauges as they
were. -/
theorem C3_rejected_before_extraction (e : Exporter) (resp : Response)
    (h : ¬ resp.statusOk ∨ (Split resp.data '\n').length ≠ 15) :
    e.Collect (.response resp) =
        some ({ e with scrapeFailures := e.scrapeFailures + 1 },
          Metric.counter (e.scrapeFailures + 1) :: e.currentConnections.Collect) ∧
      ((Split resp.data '\n').length = 15 ↔ resp.data.count '\n' = 14) := by
  refine ⟨?_, ?_⟩
  · by_cases hs : resp.statusOk
    · have hn : (Split resp.data '\n').length ≠ 15 := by
        rcases h with h | h
        · exact absurd hs h
        · exact h
      exact Collect_of_collect_error _ _ _ _ (collect_lineCount e resp hs hn)
    · exact Collect_of_collect_error _ _ _ _ (collect_status e resp hs)
  · rw [Split_length]
    omega

set_option maxRecDepth 100000 in
/-- C3, witness: the well-formed report of the test behind the status 503, after a
successful round. -/
theorem C3_rejected_before_extraction_witness :
    (¬ unavailableResponse.statusOk ∨ (Split unavailableResponse.data '\n').length ≠ 15) ∧
      afterTest.Collect (.response unavailableResponse) =
        some ({ afterTest with scrapeFailures := afterTest.scrapeFailures + 1 },
          Metric.counter (afterTest.scrapeFailures + 1) ::
            afterTest.currentConnections.Collect) ∧
      ((Split unavailableResponse.data '\n').length = 15 ↔
        unavailableResponse.data.count '\n' = 14) :=
  ⟨Or.inl (by decide),
    C3_rejected_before_extraction afterTest unavailableResponse (Or.inl (by decide))⟩

/-- C4, amended: for every exporter, list of lines, index in range, name and
label, `Extract` returns no error if and only if the line splits on ':' into
exactly two parts, the first part is equal to the name and the second part,
trimmed, is a base-10 integer that fits the 64-bit int; then the gauge of the label
is set to `float64` of that integer (the integer itself when its magnitude is at
most 2^53) and no other gauge changes; when it returns an error the exporter is as
before; and it does not panic. -/
theorem C4_Extract_iff (e : Exporter) (k : Nat) (name label : GoString)
    (lines : List GoString) (hk : k < lines.length) :
    ((∃ e1, e.Extract k name label lines = some (e1, none)) ↔
        ∃ t, Split (lineAt lines k) ':' = [name, t] ∧ IsBase10Integer (TrimSpace t) ∧
          FitsInt (decimalValue (TrimSpace t))) ∧
      (∀ e1, e.Extract k name label lines = some (e1, none) →
        ∃ t, Split (lineAt lines k) ':' = [name, t] ∧
          e1 = { e with currentConnections :=
            e.currentConnections.Set label (float64 (decimalValue (TrimSpace t))) } ∧
          e1.currentConnections.value label = some (float64 (decimalValue (TrimSpace t))) ∧
          (∀ l1, l1 ≠ label →
            e1.currentConnections.value l1 = e.currentConnections.value l1) ∧
          (-(2 ^ 53 : Int) ≤ decimalValue (TrimSpace t) ∧
              decimalValue (TrimSpace t) ≤ (2 ^ 53 : Int) →
            e1.currentConnections.value label = some (decimalValue (TrimSpace t)))) ∧
      (∀ e1 err, e.Extract k name label lines = some (e1, some err) → e1 = e) ∧
      e.Extract k name label lines ≠ none := by
  have hl := getElem?_lineAt lines k hk
  have hsucc : ∀ e1, e.Extract k name label lines = some (e1, none) →
      ∃ t, Split (lineAt lines k) ':' = [name, t] ∧ IsBase10Integer (TrimSpace t) ∧
        FitsInt (decimalValue (TrimSpace t)) ∧
        e1 = e.setGauge label (decimalValue (TrimSpace t)) := by
    intro e1 h1
    obtain ⟨l, v, a, b, c⟩ := (Extract_ok_iff _ _ _ _ _ _).1 h1
    rw [hl] at a
    simp only [Option.some.injEq] at a
    subst a
    obtain ⟨t, t1, t2, t3, t4⟩ := (lineResult_ok_iff _ _ _).1 b
    subst t3
    exact ⟨t, t1, t2, t4, c⟩
  refine ⟨⟨?_, ?_⟩, ?_, ?_, ?_⟩
  · rintro ⟨e1, h1⟩
    obtain ⟨t, t1, t2, t3, _⟩ := hsucc e1 h1
    exact ⟨t, t1, t2, t3⟩
  · rintro ⟨t, t1, t2, t3⟩
    exact ⟨_, (Extract_ok_iff _ _ _ _ _ _).2
      ⟨_, _, hl, (lineResult_ok_iff _ _ _).2 ⟨t, t1, t2, rfl, t3⟩, rfl⟩⟩
  · intro e1 h1
    obtain ⟨t, t1, _, _, t4⟩ := hsucc e1 h1
    have hv : e1.currentConnections.value label = some (float64 (decimalValue (TrimSpace t))) := by
      rw [t4]; exact value_Set_same _ _ _
    refine ⟨t, t1, t4, hv, ?_, ?_⟩
    · intro l1 hne
      rw [t4]; exact value_Set_other _ _ _ _ hne
    · intro hb
      rw [hv, float64_exact _ hb.1 hb.2]
  · intro e1 err h1
    exact ((Extract_error_iff _ _ _ _ _ _ _).1 h1).1
  · intro hnone
    have := (Extract_none_iff e k name label lines).1 hnone
    omega

set_option maxRecDepth 100000 in
/-- C4, witness: line 8 of the report of the test, `idle processes: 25`. -/
theorem C4_Extract_iff_witness :
    8 < (Split fpmStatus '\n').length ∧
      (∃ e1, freshExporter.Extract 8 "idle processes".toList "idle_processes".toList
        (Split fpmStatus '\n') = some (e1, none)) := by
  refine ⟨by decide, ?_⟩
  refine (C4_Extract_iff freshExporter 8 "idle processes".toList "idle_processes".toList
    (Split fpmStatus '\n') (by decide)).1.2 ⟨"       25".toList, by decide, by decide, by decide⟩

/-- C4, counterexample: the line `accepted conn: 9223372036854775808` splits on ':'
into two parts, the first is the name and the second, trimmed, is a base-10
integer, and `Extract` returns a range error; and on the line
`accepted conn: 9007199254740993` it returns no error and sets the gauge to
9007199254740992. -/
theorem C4_counterexample_range_and_rounding :
    Split "accepted conn: 9223372036854775808".toList ':' =
        ["accepted conn".toList, " 9223372036854775808".toList] ∧
      IsBase10Integer (TrimSpace " 9223372036854775808".toList) ∧
      freshExporter.Extract 0 "accepted conn".toList "accepted_connection".toList
          ["accepted conn: 9223372036854775808".toList] =
        some (freshExporter, some (.numError "9223372036854775808".toList .ErrRange)) ∧
      decimalValue (TrimSpace " 9007199254740993".toList) = 9007199254740993 ∧
      freshExporter.Extract 0 "accepted conn".toList "accepted_connection".toList
          ["accepted conn: 9007199254740993".toList] =
        some ({ freshExporter with
          currentConnections := [("accepted_connection".toList, 9007199254740992)] }, none) :=
  ⟨by decide, by decide, by decide, by decide, by decide⟩

/-- C5: for every exporter and every response with a status in [200, 400) and a
body of 15 lines, if `Extract` rejects line k of the field table with the error
`err` and accepts every line of the table of smaller index, then `collect` returns
`err`, the gauge of every line of index k or more keeps its prior value (an absent
one stays absent), and `Collect` increments the failure counter by exactly 1. When
k is 4 the exporter that `collect` leaves is the prior one; and when the name of
line 4 is not `accepted conn`, `collect` returns the line-mismatch error of line 4
and leaves the exporter as it was. -/
theorem C5_fail_fast (e : Exporter) (resp : Response) (k : Nat) (name label : GoString)
    (err : ScrapeError) (hs : resp.statusOk) (hn : (Split resp.data '\n').length = 15)
    (hk : (k, name, label) ∈ fieldTable)
    (hrej : e.Extract k name label (Split resp.data '\n') = some (e, some err))
    (hmin : ∀ f ∈ fieldTable, f.1 < k →
      ∃ e2, e.Extract f.1 f.2.1 f.2.2 (Split resp.data '\n') = some (e2, none)) :
    ∃ e1, e.collect (.response resp) = some (e1, some err) ∧
      (∀ f ∈ fieldTable, k ≤ f.1 →
        e1.currentConnections.value f.2.2 = e.currentConnections.value f.2.2) ∧
      e.Collect (.response resp) =
        some ({ e1 with scrapeFailures := e.scrapeFailures + 1 },
          Metric.counter (e.scrapeFailures + 1) :: e1.currentConnections.Collect) ∧
      (k = 4 → e1 = e) ∧
      (beforeColon (lineAt (Split resp.data '\n') 4) ≠ "accepted conn".toList →
        e.collect (.response resp) =
          some (e, some (.unexpectedLine (lineAt (Split resp.data '\n') 4)
            "accepted conn".toList))) := by
  obtain ⟨pre, post, hsplit⟩ := List.append_of_mem hk
  obtain ⟨s1, _, s3, s4⟩ := fieldTable_split pre post _ hsplit
  have hmem : ∀ g ∈ pre, g ∈ fieldTable := fun g hg => by
    rw [hsplit]; exact List.mem_append_left _ hg
  have hpre : ∀ g ∈ pre, ∃ l v, (Split resp.data '\n')[g.1]? = some l ∧
      lineResult g.2.1 l = .ok v := by
    intro g hg
    obtain ⟨e2, h2⟩ := hmin g (hmem g hg) (s1 g hg)
    obtain ⟨l, v, a, b, _⟩ := (Extract_ok_iff _ _ _ _ _ _).1 h2
    exact ⟨l, v, a, b⟩
  obtain ⟨_, l, hl, hr⟩ := (Extract_error_iff _ _ _ _ _ _ _).1 hrej
  obtain ⟨e1, h1, h2⟩ := extractAll_first_reject (Split resp.data '\n') pre post
    (k, name, label) e l err hpre hl hr
  have hc : e.collect (.response resp) = some (e1, some err) := by
    rw [collect_extract e resp hs hn, hsplit]; exact h2
  obtain ⟨_, f2, f3⟩ := extractAll_frame _ _ _ _ _ h1
  refine ⟨e1, hc, fun f hf hle => f3 _ (s4 f hf hle), ?_, ?_, ?_⟩
  · rw [Collect_of_collect_error _ _ _ _ hc, f2]
  · intro h4
    have hnil : pre = [] := pre_eq_nil_of_four pre hmem (fun g hg => by have := s1 g hg; omega)
    subst hnil
    simp only [extractAll, Option.some.injEq, Prod.mk.injEq, and_true] at h1
    exact h1.symm
  · intro hname
    have h15 : 4 < (Split resp.data '\n').length := by omega
    obtain ⟨e3, h3, h4⟩ := extractAll_first_reject (Split resp.data '\n') [] fieldTable.tail
      (4, "accepted conn".toList, "accepted_connection".toList) e _ _
      (fun g hg => by cases hg) (getElem?_lineAt _ 4 h15)
      (lineResult_name_mismatch _ _ hname)
    simp only [extractAll, Option.some.injEq, Prod.mk.injEq, and_true] at h3
    subst h3
    rw [collect_extract e resp hs hn]
    exact h4

set_option maxRecDepth 100000 in
/-- C5, witness: after the round of the test, the report whose line 5 is
`listen queue: unknown`: line 4 is accepted, line 5 is rejected. -/
theorem C5_fail_fast_witness :
    ∃ e1, afterTest.collect (.response brokenResponse) =
        some (e1, some (.numError "unknown".toList .ErrSyntax)) ∧
      (∀ f ∈ fieldTable, 5 ≤ f.1 →
        e1.currentConnections.value f.2.2 = afterTest.currentConnections.value f.2.2) ∧
      afterTest.Collect (.response brokenResponse) =
        some ({ e1 with scrapeFailures := afterTest.scrapeFailures + 1 },
          Metric.counter (afterTest.scrapeFailures + 1) :: e1.currentConnections.Collect) ∧
      (5 = 4 → e1 = afterTest) ∧
      (beforeColon (lineAt (Split brokenResponse.data '\n') 4) ≠ "accepted conn".toList →
        afterTest.collect (.response brokenResponse) =
          some (afterTest, some (.unexpectedLine (lineAt (Split brokenResponse.data '\n') 4)
            "accepted conn".toList))) :=
  C5_fail_fast afterTest brokenResponse 5 "listen queue".toList "listen_queue".toList
    (.numError "unknown".toList .ErrSyntax) (by decide) (by decide) (by decide) (by decide)
    (fun f hf hlt => by
      simp only [fieldTable, List.mem_cons, List.mem_singleton, List.not_mem_nil, or_false] at hf
      rcases hf with h | h | h | h | h | h | h | h | h | h <;> subst h
      · exact ⟨afterTest.setGauge "accepted_connection".toList 1049663, by decide⟩
      all_goals exact absurd hlt (by decide))

/-- C2, amended: in every round in which `collect` returns an error, `Collect`
increments the failure counter by 1 and: after a transport failure, a status
outside [200, 400) or a line count other than 15 the gauge vector is as before;
otherwise there is a first rejected line of the field table, the gauges of that
line and of the lines after it keep their prior values (all ten of them when it is
line 4), and the gauge of each line before it holds the value that `Extract` set
from this report. -/
theorem C2_stale_on_error (e e1 : Exporter) (r : FetchResult) (out : List Metric)
    (hC : e.Collect r = some (e1, out)) (hfail : roundFailed e r = true) :
    e1.scrapeFailures = e.scrapeFailures + 1 ∧
      (∀ msg, r = .failed msg → e1.currentConnections = e.currentConnections) ∧
      (∀ resp, r = .response resp → ¬ resp.statusOk ∨ (Split resp.data '\n').length ≠ 15 →
        e1.currentConnections = e.currentConnections) ∧
      (∀ resp, r = .response resp → resp.statusOk → (Split resp.data '\n').length = 15 →
        ∃ f ∈ fieldTable,
          (∃ err, e.Extract f.1 f.2.1 f.2.2 (Split resp.data '\n') = some (e, some err)) ∧
          (∀ g ∈ fieldTable, g.1 < f.1 →
            ∃ e2, e.Extract g.1 g.2.1 g.2.2 (Split resp.data '\n') = some (e2, none) ∧
              e1.currentConnections.value g.2.2 = e2.currentConnections.value g.2.2) ∧
          (∀ g ∈ fieldTable, f.1 ≤ g.1 →
            e1.currentConnections.value g.2.2 = e.currentConnections.value g.2.2) ∧
          (f.1 = 4 → e1.currentConnections = e.currentConnections)) := by
  obtain ⟨e0, err, hc⟩ := (roundFailed_iff e r).1 hfail
  rw [Collect_of_collect_error _ _ _ _ hc] at hC
  simp only [Option.some.injEq, Prod.mk.injEq] at hC
  obtain ⟨he1, _⟩ := hC
  have hcc : e1.currentConnections = e0.currentConnections := by rw [← he1]
  obtain ⟨_, hsf, _⟩ := collect_frame _ _ _ _ hc
  refine ⟨by rw [← he1, ← hsf], ?_, ?_, ?_⟩
  · intro msg hr
    subst hr
    simp only [Exporter.collect, Option.some.injEq, Prod.mk.injEq] at hc
    rw [hcc, ← hc.1]
  · intro resp hr hbad
    subst hr
    by_cases hs : resp.statusOk
    · have hn : (Split resp.data '\n').length ≠ 15 := by
        rcases hbad with h | h
        · exact absurd hs h
        · exact h
      rw [collect_lineCount e resp hs hn] at hc
      simp only [Option.some.injEq, Prod.mk.injEq] at hc
      rw [hcc, ← hc.1]
    · rw [collect_status e resp hs] at hc
      simp only [Option.some.injEq, Prod.mk.injEq] at hc
      rw [hcc, ← hc.1]
  · intro resp hr hs hn
    subst hr
    rw [collect_extract e resp hs hn] at hc
    obtain ⟨pre, f, post, l, hsplit, hpre, hl, hres⟩ := extractAll_error_split _ _ _ _ _ hc
    obtain ⟨s1, _, s3, s4⟩ := fieldTable_split pre post f hsplit
    have hmem : ∀ g ∈ pre, g ∈ fieldTable := fun g hg => by
      rw [hsplit]; exact List.mem_append_left _ hg
    have hf : f ∈ fieldTable := by
      rw [hsplit]; exact List.mem_append_right _ (List.mem_cons_self _ _)
    have hnd : (pre.map (fun f => f.2.2)).Nodup := by
      have h := fieldLabels_nodup
      unfold fieldLabels at h
      rw [hsplit, List.map_append, List.nodup_append] at h
      exact h.1
    obtain ⟨_, _, f3⟩ := extractAll_frame _ _ _ _ _ hpre
    refine ⟨f, hf, ⟨err, (Extract_error_iff _ _ _ _ _ _ _).2 ⟨rfl, l, hl, hres⟩⟩, ?_, ?_, ?_⟩
    · intro g hg hlt
      obtain ⟨l1, v, a, b, c⟩ := extractAll_ok_values _ _ _ _ hpre hnd g (s3 g hg hlt)
      refine ⟨e.setGauge g.2.2 v, (Extract_ok_iff _ _ _ _ _ _).2 ⟨l1, v, a, b, rfl⟩, ?_⟩
      rw [hcc, c]
      exact (value_Set_same _ _ _).symm
    · intro g hg hle
      rw [hcc]
      exact f3 _ (s4 g hg hle)
    · intro h4
      have hnil : pre = [] :=
        pre_eq_nil_of_four pre hmem (fun g hg => by have := s1 g hg; omega)
      subst hnil
      simp only [extractAll, Option.some.injEq, Prod.mk.injEq, and_true] at hpre
      rw [hcc, ← hpre]

set_option maxRecDepth 100000 in
/-- C2, witness: after the round of the test, the report whose fields are shifted
by one: the round fails, the counter goes from 0 to 1, and there is a first
rejected line from which on the gauges keep their values. -/
theorem C2_stale_on_error_witness :
    afterTest.Collect (.response shiftedResponse) =
        some ({ afterTest with scrapeFailures := 1 },
          Metric.counter 1 :: afterTest.currentConnections.Collect) ∧
      roundFailed afterTest (.response shiftedResponse) = true ∧
      ({ afterTest with scrapeFailures := 1 } : Exporter).scrapeFailures =
        afterTest.scrapeFailures + 1 ∧
      (∀ resp, FetchResult.response shiftedResponse = .response resp → resp.statusOk →
        (Split resp.data '\n').length = 15 →
        ∃ f ∈ fieldTable,
          (∃ err, afterTest.Extract f.1 f.2.1 f.2.2 (Split resp.data '\n') =
            some (afterTest, some err)) ∧
          (∀ g ∈ fieldTable, g.1 < f.1 →
            ∃ e2, afterTest.Extract g.1 g.2.1 g.2.2 (Split resp.data '\n') = some (e2, none) ∧
              ({ afterTest with scrapeFailures := 1 } : Exporter).currentConnections.value g.2.2 =
                e2.currentConnections.value g.2.2) ∧
          (∀ g ∈ fieldTable, f.1 ≤ g.1 →
            ({ afterTest with scrapeFailures := 1 } : Exporter).currentConnections.value g.2.2 =
              afterTest.currentConnections.value g.2.2) ∧
          (f.1 = 4 →
            ({ afterTest with scrapeFailures := 1 } : Exporter).currentConnections =
              afterTest.currentConnections)) :=
  have h := C2_stale_on_error afterTest { afterTest with scrapeFailures := 1 }
    (.response shiftedResponse) (Metric.counter 1 :: afterTest.currentConnections.Collect)
    (by decide) (by decide)
  ⟨by decide, by decide, h.1, h.2.2.2⟩

set_option maxRecDepth 100000 in
/-- C2, counterexample: after the round of the test (`accepted_connection` is
1049662), a report of 15 lines whose line 4 is `accepted conn: 1049663` and whose
line 5 has no number: `collect` returns the numeric-parse error of line 5, and
after `Collect` the label `accepted_connection` holds 1049663. -/
theorem C2_counterexample_earlier_gauge_overwritten :
    Reachable afterTest ∧
      roundFailed afterTest (.response brokenResponse) = true ∧
      (afterTest.collect (.response brokenResponse)).map Prod.snd =
        some (some (.numError "unknown".toList .ErrSyntax)) ∧
      afterTest.currentConnections.value "accepted_connection".toList = some 1049662 ∧
      (afterTest.Collect (.response brokenResponse)).map
          (fun p => p.1.currentConnections.value "accepted_connection".toList) =
        some (some 1049663) :=
  ⟨Reachable.step (.response testResponse) (Reachable.init _)
      (by decide : freshExporter.Collect (.response testResponse) =
        some (afterTest, afterTest.currentConnections.Collect)),
    by decide, by decide, by decide, by decide⟩

/-- C6: from the exporter that `NewExporter` builds, every finite sequence of
calls of `Collect` ends, and the failure counter is then the number of rounds of
the sequence in which `collect` returned an error; so it is the length of the
sequence when every round failed. From any exporter, a sequence of rounds adds to
the counter the number of its failed rounds, and one round adds 1 when it failed
and nothing when it did not: the counter never decreases. -/
theorem C6_failure_counter (uri : GoString) (e : Exporter) (rs : List FetchResult) :
    (∃ e1 flags, runCollects (NewExporter uri) rs = some (e1, flags) ∧
        flags.length = rs.length ∧ e1.scrapeFailures = flags.count true ∧
        ((∀ b ∈ flags, b = true) → e1.scrapeFailures = rs.length)) ∧
      (∃ e1 flags, runCollects e rs = some (e1, flags) ∧
        e1.scrapeFailures = e.scrapeFailures + flags.count true) ∧
      (∀ r, ∃ e1 out, e.Collect r = some (e1, out) ∧
        e1.scrapeFailures = e.scrapeFailures + (if roundFailed e r = true then 1 else 0)) := by
  refine ⟨?_, ?_, fun r => Collect_counter e r⟩
  · obtain ⟨e1, flags, h1, h2, h3⟩ := runCollects_counter (NewExporter uri) rs
    have h4 : e1.scrapeFailures = flags.count true := by
      rw [h3]; simp [NewExporter]
    exact ⟨e1, flags, h1, h2, h4, fun hall => by rw [h4, count_true_of_all flags hall, h2]⟩
  · obtain ⟨e1, flags, h1, _, h3⟩ := runCollects_counter e rs
    exact ⟨e1, flags, h1, h3⟩

set_option maxRecDepth 100000 in
/-- C6, example: three rounds from the fresh exporter, a refused connection, the
report of the test and a status 503: the counter ends at 2. -/
theorem C6_failure_counter_witness :
    (runCollects freshExporter
        [.failed "connection refused".toList, .response testResponse,
          .response unavailableResponse]).map
      (fun p => (p.1.scrapeFailures, p.2)) = some (2, [true, false, true]) ∧
    ∃ e1 flags, runCollects freshExporter
        [.failed "connection refused".toList, .response testResponse,
          .response unavailableResponse] = some (e1, flags) ∧
      e1.scrapeFailures = freshExporter.scrapeFailures + flags.count true :=
  ⟨by decide, (C6_failure_counter [] freshExporter _).2.1⟩

/-- C7, amended: in every reachable state the labels of the gauges are labels of
the field table, each at most once; after a round in which `collect` returned no
error they are exactly the ten labels of the table; and once they are the ten
labels they remain so after every round. -/
theorem C7_label_set (e : Exporter) (he : Reachable e) :
    e.currentConnections.labels.Nodup ∧
      (∀ l, l ∈ e.currentConnections.labels → l ∈ fieldLabels) ∧
      (∀ r e1 out, e.Collect r = some (e1, out) → roundFailed e r = false →
        e1.currentConnections.labels.Perm fieldLabels) ∧
      (e.currentConnections.labels.Perm fieldLabels →
        ∀ r e1 out, e.Collect r = some (e1, out) →
          e1.currentConnections.labels.Perm fieldLabels) := by
  obtain ⟨r1, r2⟩ := reachable_labels e he
  refine ⟨r1, r2, ?_, ?_⟩
  · intro r e1 out hC hok
    obtain ⟨e0, err, hc, hcc⟩ := Collect_gauges _ _ _ _ hC
    obtain ⟨e2, hc2⟩ := (roundFailed_false_iff e r).1 hok
    rw [hc2] at hc
    simp only [Option.some.injEq, Prod.mk.injEq] at hc
    obtain ⟨h1, h2⟩ := hc
    subst h1
    obtain ⟨_, _, _, d1, _, d3, d4⟩ := collect_frame _ _ _ _ hc2
    rw [hcc, perm_fieldLabels_iff _ (d3 r1)]
    intro l
    constructor
    · intro hl
      rcases d1 l hl with h | h
      · exact r2 l h
      · exact h
    · exact d4 rfl l
  · intro hperm r e1 out hC
    obtain ⟨e0, err, hc, hcc⟩ := Collect_gauges _ _ _ _ hC
    obtain ⟨_, _, _, d1, d2, d3, _⟩ := collect_frame _ _ _ _ hc
    rw [hcc, perm_fieldLabels_iff _ (d3 r1)]
    intro l
    constructor
    · intro hl
      rcases d1 l hl with h | h
      · exact r2 l h
      · exact h
    · intro hl
      exact d2 l (hperm.mem_iff.2 hl)

set_option maxRecDepth 100000 in
/-- C7, witness: the exporter after the round of the test, which is reachable, has
the ten labels. -/
theorem C7_label_set_witness :
    Reachable afterTest ∧ afterTest.currentConnections.labels = fieldLabels ∧
      afterTest.currentConnections.labels.Nodup ∧
      (∀ l, l ∈ afterTest.currentConnections.labels → l ∈ fieldLabels) :=
  have h : Reachable afterTest :=
    Reachable.step (.response testResponse) (Reachable.init _)
      (by decide : freshExporter.Collect (.response testResponse) =
        some (afterTest, afterTest.currentConnections.Collect))
  ⟨h, by decide, (C7_label_set afterTest h).1, (C7_label_set afterTest h).2.1⟩

set_option maxRecDepth 100000 in
/-- C7, counterexample: the exporter that `NewExporter` builds has no gauge at all,
and sends none; after a first round that fails it still has none; and after a
round that fails on line 5 it has the one label `accepted_connection`. -/
theorem C7_counterexample_fresh_exporter :
    Reachable freshExporter ∧ freshExporter.currentConnections.labels = [] ∧
      freshExporter.currentConnections.Collect = [] ∧ fieldLabels.length = 10 ∧
      freshExporter.Collect (.failed "connection refused".toList) =
        some ({ freshExporter with scrapeFailures := 1 }, [Metric.counter 1]) ∧
      freshExporter.Collect (.response brokenResponse) =
        some ({ freshExporter with
            scrapeFailures := 1
            currentConnections := [("accepted_connection".toList, 1049663)] },
          [Metric.counter 1, Metric.gauge "accepted_connection".toList 1049663]) :=
  ⟨Reachable.init _, by decide, by decide, by decide, by decide, by decide⟩

/-- C8: for every exporter and every two responses with a status in [200, 400)
and bodies of 15 lines that agree on the lines 4 to 13, `collect` returns the same
outcome, the same error or none, and leaves the same exporter, and `Collect` leaves
the same exporter and sends the same samples; and no gauge with a label outside the
ten of the field table is changed by a round: line 14 and lines 0 to 3 set
nothing. -/
theorem C8_ignored_lines (e : Exporter) (resp resp1 : Response) (hs : resp.statusOk)
    (hs1 : resp1.statusOk) (hn : (Split resp.data '\n').length = 15)
    (hn1 : (Split resp1.data '\n').length = 15)
    (hagree : ∀ i, 4 ≤ i → i ≤ 13 → (Split resp.data '\n')[i]? = (Split resp1.data '\n')[i]?) :
    e.collect (.response resp) = e.collect (.response resp1) ∧
      e.Collect (.response resp) = e.Collect (.response resp1) ∧
      (∀ e1 err, e.collect (.response resp) = some (e1, err) →
        ∀ l, l ∉ fieldLabels → e1.currentConnections.value l = e.currentConnections.value l) := by
  have hc : e.collect (.response resp) = e.collect (.response resp1) := by
    rw [collect_extract e resp hs hn, collect_extract e resp1 hs1 hn1]
    apply extractAll_congr
    intro f hf
    have h1 := fieldTable_index_ge f hf
    have h2 : f.1 ≤ 13 := by
      simp only [fieldTable, List.mem_cons, List.mem_singleton, List.not_mem_nil, or_false] at hf
      rcases hf with h | h | h | h | h | h | h | h | h | h <;> subst h <;> decide
    exact hagree f.1 h1 h2
  refine ⟨hc, ?_, ?_⟩
  · unfold Exporter.Collect
    rw [hc]
  · intro e1 err h l hl
    exact (collect_frame _ _ _ _ h).2.2.1 l hl

set_option maxRecDepth 100000 in
/-- C8, witness: the report of the test and the report of another pool with the
same lines 4 to 13, other lines 0 to 3 and a text on line 14. -/
theorem C8_ignored_lines_witness :
    (Split testResponse.data '\n')[0]? ≠ (Split otherPoolResponse.data '\n')[0]? ∧
      (Split testResponse.data '\n')[14]? ≠ (Split otherPoolResponse.data '\n')[14]? ∧
      afterTest.collect (.response testResponse) =
        afterTest.collect (.response otherPoolResponse) :=
  ⟨by decide, by decide,
    (C8_ignored_lines afterTest testResponse otherPoolResponse (by decide) (by decide)
      (by decide) (by decide)
      (fun i h4 h13 => by interval_cases i <;> decide)).1⟩

/-- C9: for every exporter and every result of the fetch, `Collect` does not panic:
`collect` returns, with no error or with one of its errors, and `Collect` returns.
`Extract` panics exactly when its line index is not below the number of lines; the
indices of the field table are between 4 and 13; `collect` reaches the calls of
`Extract`, those of the field table, only for a body of 15 lines, and otherwise
returns an error and leaves the exporter as it was. -/
theorem C9_no_panic (e : Exporter) (r : FetchResult) :
    (∃ e1 out, e.Collect r = some (e1, out)) ∧
      (∃ e1 err, e.collect r = some (e1, err)) ∧
      (∀ f ∈ fieldTable, 4 ≤ f.1 ∧ f.1 ≤ 13) ∧
      ((∃ err, e.collect r = some (e, some err)) ∨
        ∃ resp, r = .response resp ∧ (Split resp.data '\n').length = 15 ∧
          e.collect r = extractAll (Split resp.data '\n') fieldTable e) ∧
      (∀ (e0 : Exporter) (k : Nat) (name label : GoString) (lines : List GoString),
        e0.Extract k name label lines = none ↔ lines.length ≤ k) := by
  refine ⟨?_, collect_isSome e r, by decide, ?_, fun e0 k name label lines =>
    Extract_none_iff e0 k name label lines⟩
  · obtain ⟨e1, out, h, _⟩ := Collect_counter e r
    exact ⟨e1, out, h⟩
  · rcases collect_cases e r with ⟨err, h, _⟩ | ⟨resp, h1, _, h3, h4⟩
    · exact Or.inl ⟨err, h⟩
    · exact Or.inr ⟨resp, h1, h3, h4⟩

end FpmExporter
